import Mathlib

/-!
Shallow embedding of the `@securecheckio/rules-engine` core
(`src/dist/rules-engine.js`) in Lean 4, together with theorems checking the
claims of its natural-language specification against the code.

Modelling conventions:
* JavaScript `Map` and plain objects used as dictionaries are modelled as
  association lists in insertion order (`Map.set` replaces in place, `delete`
  removes), matching the iteration-order semantics relied on by the source.
* Machine numbers (`Date.now()` timestamps, counters, TTLs) are `Nat`; no
  arithmetic in the source can overflow a double in any scenario relevant to
  the claims.
* Every call to `Date.now()` within a single `evaluate` invocation is modelled
  by one `now : Nat` parameter (so `evalTimeMs` is always `0` in the model);
  time advances between calls via distinct `now` arguments.
* The host regular-expression engine (`new RegExp` / `exec`) is an external
  capability: it is a parameter (`RegexHost`) whose `compile` returns `none`
  exactly when `new RegExp` would throw `SyntaxError`, and whose `exec`
  returns the first matched substring.  The source resets `lastIndex` before
  every `exec`, so `exec` is a pure function of pattern, flags and input.
  `RegexCache` only memoizes successful compilations of this pure function and
  is therefore semantically transparent; it is not modelled separately.
* The semantic matcher and state provider are external collaborators, modelled
  as function parameters, exactly as consumed by the engine.
* JavaScript string primitives (`includes`, `toLowerCase`) are modelled over
  `List Char`; `toLowerCase` is modelled by ASCII lowercasing (the claims do
  not depend on non-ASCII case mapping).
* Exceptions escaping `evaluate` (the only possible one is the `SyntaxError`
  from compiling an invalid regex pattern) are modelled with `Except`.
-/

/-- Association-list lookup, modelling JavaScript `Map.get` and object
indexing: the value at the first (unique) occurrence of the key. -/
def alGet {α : Type} (l : List (String × α)) (k : String) : Option α :=
  (l.find? (fun p => p.1 == k)).map Prod.snd

/-- Association-list update, modelling `Map.set` / object assignment: replaces
the binding in place if the key is present, otherwise appends it. -/
def alSet {α : Type} (l : List (String × α)) (k : String) (v : α) :
    List (String × α) :=
  match l with
  | [] => [(k, v)]
  | p :: rest => if p.1 == k then (k, v) :: rest else p :: alSet rest k v

/-- Association-list removal, modelling `Map.delete`. -/
def alDel {α : Type} (l : List (String × α)) (k : String) : List (String × α) :=
  l.filter (fun p => p.1 != k)

/-- JavaScript `x || d` on an optional number: both `undefined` and `0` are
falsy and select the default. -/
def jsOrNat (x : Option Nat) (d : Nat) : Nat :=
  match x with
  | none => d
  | some n => if n = 0 then d else n

/-- JavaScript `x || d` on an optional (real-valued) number, used for
`rule.semanticThreshold || 0.85`. -/
def jsOrRat (x : Option ℚ) (d : ℚ) : ℚ :=
  match x with
  | none => d
  | some q => if q = 0 then d else q

/-- JavaScript truthiness of an optional array combined with a length check,
modelling the guards `x && x.length > 0`. -/
def jsNonempty {α : Type} (x : Option (List α)) : Bool :=
  match x with
  | none => false
  | some l => decide (0 < l.length)

/-- Rendering of an optional number inside a template literal (`undefined`
prints as the string "undefined"). -/
def jsNumStr (x : Option Nat) : String :=
  match x with
  | none => "undefined"
  | some n => toString n

/-- ASCII lowercasing of one character, modelling `String.toLowerCase` on the
character sets exercised by the engine. -/
def jsCharLower (c : Char) : Char :=
  if decide ('A' ≤ c) && decide (c ≤ 'Z') then Char.ofNat (c.toNat + 32) else c

/-- Model of JavaScript `String.prototype.toLowerCase`. -/
def jsToLower (s : String) : String :=
  ⟨s.data.map jsCharLower⟩

/-- Whether the second list is a prefix of the first. -/
def charsStartWith : List Char → List Char → Bool
  | _, [] => true
  | [], _ :: _ => false
  | a :: l, b :: m => a == b && charsStartWith l m

/-- Whether the second list occurs as a contiguous segment of the first. -/
def charsInclude : List Char → List Char → Bool
  | [], sub => sub.isEmpty
  | a :: t, sub => charsStartWith (a :: t) sub || charsInclude t sub

/-- Model of JavaScript `String.prototype.includes`. -/
def strIncludes (s sub : String) : Bool :=
  charsInclude s.data sub.data

/-- Rule flags block (`RuleFlags` in src/dist/index.d.ts). -/
structure RuleFlags where
  set : Option (List String) := none
  unset : Option (List String) := none
  check : Option (List String) := none
  ttl : Option Nat := none
deriving DecidableEq, Repr

/-- Rule record (`Rule` in src/dist/index.d.ts).  `category`, `severity` and
`action` are strings, matching the untyped dictionary lookup
`actionPriority[rule.action]` performed by the source. -/
structure Rule where
  id : String
  content : Option (List String) := none
  pcre : Option (List String) := none
  semantic : Option (List String) := none
  semanticThreshold : Option ℚ := none
  flags : Option RuleFlags := none
  threshold : Option Nat := none
  window : Option Nat := none
  category : String
  severity : String
  action : String
  enabled : Bool
  nocase : Option Bool := none
deriving DecidableEq, Repr

/-- Flag history entry (`FlagHistoryEntry`). -/
structure FlagHistoryEntry where
  flag : String
  action : String
  ruleId : String
  timestamp : Nat
deriving DecidableEq, Repr

/-- Conversation state (`ConversationState`).  The `flags` object is an
association list from flag name to boolean. -/
structure ConversationState where
  id : String
  tokenId : String
  conversationId : String
  accountId : Option String
  flags : List (String × Bool)
  flagHistory : List FlagHistoryEntry
  expiresAt : Nat
  createdAt : Nat
  updatedAt : Nat
deriving DecidableEq, Repr

/-- Evaluation context (`EvaluationContext`). -/
structure EvaluationContext where
  tokenId : String
  conversationId : String
  accountId : Option String := none
  message : String
  state : Option ConversationState := none
deriving DecidableEq, Repr

/-- Record of how `matchedPattern` was produced.  The source stores a string;
the three producers are captured exactly, with the semantic similarity
percentage kept symbolic (the source formats an IEEE double via `toFixed`; no
claim concerns that text). -/
inductive MatchedPat where
  | keywords (s : String)
  | regexHit (s : String)
  | semanticPct (similarity : ℚ)
deriving DecidableEq, Repr

/-- Evaluation result (`EvaluationResult`). -/
structure EvalResult where
  matched : Bool
  rule : Option Rule := none
  action : Option String := none
  state : Option ConversationState := none
  reason : Option String := none
  evalTimeMs : Option Nat := none
  similarity : Option ℚ := none
  matchedPattern : Option MatchedPat := none
deriving DecidableEq, Repr

/-- Entry of the in-memory state cache. -/
structure CacheEntry where
  state : ConversationState
  lastAccess : Nat
  dirty : Bool
deriving DecidableEq, Repr

/-- In-memory conversation-state cache (`StateCache`), including the dirty
write queue.  The batch timer only schedules the external flush and is not
observable by any claim, so it is not modelled. -/
structure StateCache where
  cache : List (String × CacheEntry) := []
  writeQueue : List String := []
deriving DecidableEq, Repr

/-- Capacity bound of the state cache (`maxSize = 10000`). -/
def StateCache.maxSize : Nat := 10000

/-- Time-to-live of cache entries in milliseconds (`ttl = 300000`). -/
def StateCache.ttl : Nat := 300000

/-- Key derivation for the state cache:
`tokenId:conversationId:accountId` with `accountId || ''` collapsing an
absent account id to the empty string. -/
def StateCache.getKey (tokenId conversationId : String)
    (accountId : Option String) : String :=
  tokenId ++ ":" ++ conversationId ++ ":" ++ accountId.getD ""

/-- Cache lookup with TTL and access refresh.  Returns the cached state (if
fresh) and the updated cache.  The truncated `Nat` subtraction agrees with the
JavaScript signed subtraction here: when `now < lastAccess` both sides make
the TTL test succeed. -/
def StateCache.get (c : StateCache) (tokenId conversationId : String)
    (accountId : Option String) (now : Nat) :
    Option ConversationState × StateCache :=
  match alGet c.cache (StateCache.getKey tokenId conversationId accountId) with
  | some cached =>
    if now - cached.lastAccess < StateCache.ttl then
      (some cached.state,
        { c with cache :=
            (alSet c.cache
              (StateCache.getKey tokenId conversationId accountId)
              ({ cached with lastAccess := now } : CacheEntry)) })
    else (none, c)
  | none => (none, c)

/-- First entry holding the minimal `lastAccess`, in insertion order: the
element selected by `Array.from(entries).sort((a, b) => a.lastAccess -
b.lastAccess)[0]` (the sort is stable per ES2019). -/
def StateCache.oldestEntry : List (String × CacheEntry) →
    Option (String × CacheEntry)
  | [] => none
  | p :: rest =>
    some (rest.foldl
      (fun best q => if q.2.lastAccess < best.2.lastAccess then q else best) p)

/-- Eviction step of `set`: drop the entry with the oldest access when the
cache is at capacity. -/
def StateCache.evictIfFull (cache : List (String × CacheEntry)) :
    List (String × CacheEntry) :=
  if StateCache.maxSize ≤ cache.length then
    match StateCache.oldestEntry cache with
    | some p => alDel cache p.1
    | none => cache
  else cache

/-- Cache insertion with LRU-by-access eviction at capacity. -/
def StateCache.set (c : StateCache) (tokenId conversationId : String)
    (state : ConversationState) (accountId : Option String) (now : Nat) :
    StateCache :=
  { c with cache :=
      (alSet (StateCache.evictIfFull c.cache)
        (StateCache.getKey tokenId conversationId accountId)
        ⟨state, now, false⟩) }

/-- Marks a cached tuple dirty and enqueues it for the next batched flush
(no-op when the tuple is not cached, as in the source). -/
def StateCache.markDirty (c : StateCache) (tokenId conversationId : String)
    (accountId : Option String) : StateCache :=
  match alGet c.cache (StateCache.getKey tokenId conversationId accountId) with
  | some cached =>
    { cache :=
        (alSet c.cache (StateCache.getKey tokenId conversationId accountId)
          ({ cached with dirty := true } : CacheEntry)),
      writeQueue :=
        if c.writeQueue.contains
            (StateCache.getKey tokenId conversationId accountId) then
          c.writeQueue
        else c.writeQueue ++
          [StateCache.getKey tokenId conversationId accountId] }
  | none => c

/-- Sliding-window counter entry of the threshold tracker. -/
structure ThresholdEntry where
  count : Nat
  firstMatch : Nat
  windowEnd : Nat
deriving DecidableEq, Repr

/-- Threshold tracker (`ThresholdTracker`): a map from conversation key to a
map from rule id to counter entry. -/
structure ThresholdTracker where
  trackers : List (String × List (String × ThresholdEntry)) := []
deriving DecidableEq, Repr

/-- Key derivation of the threshold tracker (same format as the state
cache). -/
def ThresholdTracker.getKey (tokenId conversationId : String)
    (accountId : Option String) : String :=
  tokenId ++ ":" ++ conversationId ++ ":" ++ accountId.getD ""

/-- Threshold check (`ThresholdTracker.check`): returns whether the rule may
fire this invocation, and the updated tracker.  `!rule.threshold ||
!rule.window` treats both an absent and a zero threshold or window as
unset. -/
def ThresholdTracker.check (t : ThresholdTracker) (rule : Rule)
    (tokenId conversationId : String) (accountId : Option String)
    (now : Nat) : Bool × ThresholdTracker :=
  if jsOrNat rule.threshold 0 = 0 || jsOrNat rule.window 0 = 0 then (true, t)
  else
    match alGet ((alGet t.trackers
        (ThresholdTracker.getKey tokenId conversationId accountId)).getD [])
        rule.id with
    | some entry =>
      if now > entry.windowEnd then
        (decide (jsOrNat rule.threshold 0 = 1),
          ⟨alSet t.trackers
            (ThresholdTracker.getKey tokenId conversationId accountId)
            (alSet ((alGet t.trackers
              (ThresholdTracker.getKey tokenId conversationId
                accountId)).getD [])
              rule.id ⟨1, now, now + jsOrNat rule.window 0 * 1000⟩)⟩)
      else
        if jsOrNat rule.threshold 0 ≤ entry.count + 1 then
          (true,
            ⟨alSet t.trackers
              (ThresholdTracker.getKey tokenId conversationId accountId)
              (alDel ((alGet t.trackers
                (ThresholdTracker.getKey tokenId conversationId
                  accountId)).getD [])
                rule.id)⟩)
        else
          (false,
            ⟨alSet t.trackers
              (ThresholdTracker.getKey tokenId conversationId accountId)
              (alSet ((alGet t.trackers
                (ThresholdTracker.getKey tokenId conversationId
                  accountId)).getD [])
                rule.id { entry with count := entry.count + 1 })⟩)
    | none =>
      (decide (jsOrNat rule.threshold 0 = 1),
        ⟨alSet t.trackers
          (ThresholdTracker.getKey tokenId conversationId accountId)
          (alSet ((alGet t.trackers
            (ThresholdTracker.getKey tokenId conversationId
              accountId)).getD [])
            rule.id ⟨1, now, now + jsOrNat rule.window 0 * 1000⟩)⟩)

/-- Host regular-expression engine (the JavaScript `RegExp` runtime).
`compile pattern flags` is `none` exactly when `new RegExp(pattern, flags)`
throws `SyntaxError`; a successful compilation is the matching function
itself, returning the first matched substring of its input, if any. -/
structure RegexHost where
  compile : String → String → Option (String → Option String)

/-- One result of the external semantic matcher: only the rule id and
similarity of a hit are consumed by the engine. -/
structure SemanticHit where
  ruleId : String
  similarity : ℚ

/-- External semantic matcher capability: `queryRules message threshold`
returns all hits at or above the threshold (across all rules). -/
def SemanticMatcher := String → ℚ → List SemanticHit

/-- External persistent state provider; `save` is modelled by collecting the
saved states in the evaluation output. -/
structure StateProvider where
  get : String → String → Option String → Option ConversationState

/-- The engine (`RulesEngine`): loaded rules plus the three internal
components and the two optional collaborators. -/
structure RulesEngine where
  rules : List Rule := []
  stateCache : StateCache := {}
  thresholdTracker : ThresholdTracker := {}
  semanticMatcher : Option SemanticMatcher := none
  stateProvider : Option StateProvider := none

/-- Priority key of a rule (`getRulePriority`, lower = evaluated first).
`actionPriority[rule.action] || 5` is modelled exactly: the table value `0`
for action `pass` is falsy in JavaScript, so the `||` replaces it with the
default `5`. -/
def RulesEngine.getRulePriority (rule : Rule) : Nat :=
  let typeCost :=
    (if rule.content.isSome then 1 else 0) +
    (if rule.pcre.isSome then 2 else 0) +
    (if rule.semantic.isSome then 3 else 0) +
    (if rule.flags.isSome then 4 else 0)
  let lookup : Option Nat :=
    if rule.action = "pass" then some 0
    else if rule.action = "set_flag" then some 1
    else if rule.action = "flag" then some 2
    else if rule.action = "alert" then some 3
    else if rule.action = "block" then some 4
    else none
  let actionValue := jsOrNat lookup 5
  actionValue * 10 + typeCost

/-- Stable insertion of an element after all earlier elements of key at most
its own. -/
def stableInsert {α : Type} (key : α → Nat) (a : α) : List α → List α
  | [] => [a]
  | x :: xs =>
    if key x ≤ key a then x :: stableInsert key a xs else a :: x :: xs

/-- Stable sort by an integer key, modelling `Array.prototype.sort` with the
comparator `(a, b) => key a - key b` (stable per ES2019). -/
def stableSortBy {α : Type} (key : α → Nat) (l : List α) : List α :=
  l.foldl (fun acc a => stableInsert key a acc) []

/-- Rule loading (`loadRules`): keep the enabled rules and sort them by
priority. -/
def RulesEngine.loadRules (rules : List Rule) : List Rule :=
  stableSortBy RulesEngine.getRulePriority (rules.filter (fun r => r.enabled))

/-- Count of loaded rules (`getRuleCount`). -/
def RulesEngine.getRuleCount (eng : RulesEngine) : Nat :=
  eng.rules.length

/-- Pre-filter by flag requirements (`preFilterRules`): a rule survives iff
`flags.check` is missing or empty, or every checked flag is currently exactly
`true` in the hydrated state. -/
def RulesEngine.preFilterRules (rules : List Rule)
    (state : ConversationState) : List Rule :=
  rules.filter fun rule =>
    match rule.flags with
    | none => true
    | some rf =>
      match rf.check with
      | none => true
      | some l =>
        if l.length = 0 then true
        else l.all fun flag => alGet state.flags flag == some true

/-- Application of one flag list (the body of `if (rule.flags.set) ...` and
`if (rule.flags.unset) ...`): assigns the value to each flag in order and
appends one history entry per flag. -/
def applyFlagList (ruleId : String) (now : Nat) (mark : String) (value : Bool)
    (acc : List (String × Bool) × List FlagHistoryEntry) (l : List String) :
    List (String × Bool) × List FlagHistoryEntry :=
  l.foldl
    (fun acc flag =>
      (alSet acc.1 flag value, acc.2 ++ [⟨flag, mark, ruleId, now⟩])) acc

/-- Optional flag-list application (`if (rule.flags.set) for (...)`). -/
def applyFlagBlock (ruleId : String) (now : Nat) (mark : String) (value : Bool)
    (acc : List (String × Bool) × List FlagHistoryEntry)
    (l : Option (List String)) :
    List (String × Bool) × List FlagHistoryEntry :=
  match l with
  | some l => applyFlagList ruleId now mark value acc l
  | none => acc

/-- The `updatedState` record built by `updateState` when the rule carries a
`flags` block: flag map and history copied through the set and unset lists,
`expiresAt` refreshed from `rule.flags.ttl || 86400`. -/
def flagsUpdatedState (rule : Rule) (rf : RuleFlags)
    (state : ConversationState) (now : Nat) : ConversationState :=
  { state with
    flags := (applyFlagBlock rule.id now "unset" false
      (applyFlagBlock rule.id now "set" true (state.flags, state.flagHistory)
        rf.set) rf.unset).1
    flagHistory := (applyFlagBlock rule.id now "unset" false
      (applyFlagBlock rule.id now "set" true (state.flags, state.flagHistory)
        rf.set) rf.unset).2
    expiresAt := now + jsOrNat rf.ttl 86400 * 1000
    updatedAt := now }

/-- State mutation after a rule fires (`updateState`).  Without a `flags`
block the state is returned unchanged and the cache is untouched; otherwise a
new state record is built from copies of the flag map and history, stored in
the cache and marked dirty. -/
def RulesEngine.updateState (c : StateCache) (rule : Rule)
    (ctx : EvaluationContext) (state : ConversationState) (now : Nat) :
    ConversationState × StateCache :=
  match rule.flags with
  | none => (state, c)
  | some rf =>
    (flagsUpdatedState rule rf state now,
      StateCache.markDirty
        (StateCache.set c ctx.tokenId ctx.conversationId
          (flagsUpdatedState rule rf state now) ctx.accountId now)
        ctx.tokenId ctx.conversationId ctx.accountId)

/-- Error that can escape `evaluate`: the `SyntaxError` thrown by
`new RegExp` on an invalid pattern. -/
inductive EvalError where
  | regexSyntax (pattern : String)
deriving DecidableEq, Repr

/-- Stage 1 (content keywords): given the per-rule accumulator `(matched,
matchedPattern)`, returns `none` when the rule is skipped (`continue`), else
the updated accumulator. -/
def contentStage (rule : Rule) (message : String)
    (acc : Bool × Option MatchedPat) : Option (Bool × Option MatchedPat) :=
  if jsNonempty rule.content then
    let l := rule.content.getD []
    let nocase := rule.nocase != some false
    let searchContent := if nocase then jsToLower message else message
    let allKeywordsFound := l.all fun keyword =>
      strIncludes searchContent (if nocase then jsToLower keyword else keyword)
    if allKeywordsFound then
      some (true, some (MatchedPat.keywords (String.intercalate ", " l)))
    else none
  else some acc

/-- Inner loop of stage 2, modelling `rule.pcre.every(...)` with its
short-circuit: patterns are compiled and executed in order; the first
noncompiling pattern raises, the first nonmatching pattern stops the
conjunction, and the first matched substring is recorded only when no
keyword pattern was recorded. -/
def pcreEvery (host : RegexHost) (message flagsStr : String)
    (mp : Option MatchedPat) :
    List String → Except EvalError (Bool × Option MatchedPat)
  | [] => .ok (true, mp)
  | pattern :: rest =>
    match host.compile pattern flagsStr with
    | none => .error (.regexSyntax pattern)
    | some exec =>
      match exec message with
      | some m =>
        pcreEvery host message flagsStr
          (if mp.isNone then some (MatchedPat.regexHit m) else mp) rest
      | none => .ok (false, mp)

/-- Stage 2 (pcre): returns `none` inside the `Except` when the rule is
skipped. -/
def pcreStage (host : RegexHost) (rule : Rule) (message : String)
    (acc : Bool × Option MatchedPat) :
    Except EvalError (Option (Bool × Option MatchedPat)) :=
  if jsNonempty rule.pcre then
    let flagsStr := if rule.nocase != some false then "gi" else "g"
    match pcreEvery host message flagsStr acc.2 (rule.pcre.getD []) with
    | .error e => .error e
    | .ok (allPatternsMatch, mp) =>
      if allPatternsMatch then .ok (some (true, mp)) else .ok none
  else .ok (some acc)

/-- Stage 3 (semantic): runs only when the rule declares a non-empty semantic
list and a matcher is configured.  A hit for this rule id sets `matched`,
records the similarity and overwrites `matchedPattern`; with no hit the rule
is skipped only when no earlier stage matched. -/
def semanticStage (sm : Option SemanticMatcher) (rule : Rule)
    (message : String) (acc : Bool × Option MatchedPat) :
    Option (Bool × Option MatchedPat × Option ℚ) :=
  match sm with
  | some matcher =>
    if jsNonempty rule.semantic then
      let threshold := jsOrRat rule.semanticThreshold 0.85
      let semanticMatches := matcher message threshold
      match semanticMatches.find? (fun m => m.ruleId == rule.id) with
      | some m =>
        some (true, some (MatchedPat.semanticPct m.similarity),
          some m.similarity)
      | none => if acc.1 then some (acc.1, acc.2, none) else none
    else some (acc.1, acc.2, none)
  | none => some (acc.1, acc.2, none)

/-- Composition of the three stages on one rule: `Except` for the regex
exception, `none` when the rule was skipped by a stage, otherwise the final
`(matched, matchedPattern, similarity)` triple. -/
def runStages (host : RegexHost) (sm : Option SemanticMatcher) (rule : Rule)
    (message : String) :
    Except EvalError (Option (Bool × Option MatchedPat × Option ℚ)) :=
  match contentStage rule message (false, none) with
  | none => .ok none
  | some acc1 =>
    match pcreStage host rule message acc1 with
    | .error e => .error e
    | .ok none => .ok none
    | .ok (some acc2) => .ok (semanticStage sm rule message acc2)

/-- Outcome of processing one rule in the evaluation loop: the emitted result
(if any), the carried state, cache and tracker, and whether the loop breaks
(critical block fired). -/
structure RuleStep where
  emitted : Option EvalResult
  state : ConversationState
  stateCache : StateCache
  thresholdTracker : ThresholdTracker
  broke : Bool

/-- Reason string of a threshold-gated non-match:
`Threshold not met (X in Ys)`. -/
def thresholdReason (rule : Rule) : String :=
  "Threshold not met (" ++ jsNumStr rule.threshold ++ " in " ++
    jsNumStr rule.window ++ "s)"

/-- One iteration of the `evaluate` loop body on an eligible rule: staged
matching, threshold gate, state mutation, result emission and the critical
block break.  With the single-timestamp model of `Date.now()`, every
`evalTimeMs` is `0`. -/
def evalRule (host : RegexHost) (sm : Option SemanticMatcher)
    (ctx : EvaluationContext) (now : Nat) (rule : Rule)
    (state : ConversationState) (c : StateCache) (tr : ThresholdTracker) :
    Except EvalError RuleStep :=
  match runStages host sm rule ctx.message with
  | .error e => .error e
  | .ok none => .ok ⟨none, state, c, tr, false⟩
  | .ok (some (matched, mp, similarity)) =>
    if matched then
      match ThresholdTracker.check tr rule ctx.tokenId ctx.conversationId
          ctx.accountId now with
      | (true, tr1) =>
        match RulesEngine.updateState c rule ctx state now with
        | (st1, c1) =>
          .ok ⟨some
            { matched := true
              rule := some rule
              action := some rule.action
              state := some st1
              matchedPattern := mp
              similarity := similarity
              evalTimeMs := some 0 },
            st1, c1, tr1,
            rule.action == "block" && rule.severity == "critical"⟩
      | (false, tr1) =>
        .ok ⟨some
          { matched := false
            rule := some rule
            reason := some (thresholdReason rule)
            evalTimeMs := some 0 },
          state, c, tr1, false⟩
    else .ok ⟨none, state, c, tr, false⟩

/-- Accumulated outcome of the evaluation loop over a list of eligible
rules. -/
structure LoopOut where
  results : List EvalResult
  state : ConversationState
  stateCache : StateCache
  thresholdTracker : ThresholdTracker
  broke : Bool

/-- The evaluation loop (`for (const rule of eligibleRules)`), threading
state, cache and tracker, collecting results in order and stopping at a
critical block. -/
def evalRules (host : RegexHost) (sm : Option SemanticMatcher)
    (ctx : EvaluationContext) (now : Nat) :
    List Rule → ConversationState → StateCache → ThresholdTracker →
    Except EvalError LoopOut
  | [], state, c, tr => .ok ⟨[], state, c, tr, false⟩
  | rule :: rest, state, c, tr =>
    match evalRule host sm ctx now rule state c tr with
    | .error e => .error e
    | .ok step =>
      if step.broke then
        .ok ⟨step.emitted.toList, step.state, step.stateCache,
          step.thresholdTracker, true⟩
      else
        match evalRules host sm ctx now rest step.state step.stateCache
            step.thresholdTracker with
        | .error e => .error e
        | .ok rec_ =>
          .ok ⟨step.emitted.toList ++ rec_.results, rec_.state,
            rec_.stateCache, rec_.thresholdTracker, rec_.broke⟩

/-- Fresh conversation state synthesized on a full hydration miss. -/
def freshState (ctx : EvaluationContext) (now : Nat) : ConversationState :=
  { id := ctx.tokenId ++ ":" ++ ctx.conversationId ++ ":" ++
      ctx.accountId.getD ""
    tokenId := ctx.tokenId
    conversationId := ctx.conversationId
    accountId := ctx.accountId
    flags := []
    flagHistory := []
    expiresAt := now + 24 * 60 * 60 * 1000
    createdAt := now
    updatedAt := now }

/-- State hydration of `evaluate`: a supplied `ctx.state` bypasses cache and
provider; otherwise cache, then provider, then a synthesized state that is
stored in the cache immediately. -/
def hydrate (eng : RulesEngine) (ctx : EvaluationContext) (now : Nat) :
    ConversationState × StateCache :=
  match ctx.state with
  | some s => (s, eng.stateCache)
  | none =>
    match StateCache.get eng.stateCache ctx.tokenId ctx.conversationId
        ctx.accountId now with
    | (some s, c1) => (s, c1)
    | (none, c1) =>
      match (match eng.stateProvider with
             | some p => p.get ctx.tokenId ctx.conversationId ctx.accountId
             | none => none) with
      | some s => (s, c1)
      | none =>
        (freshState ctx now,
          StateCache.set c1 ctx.tokenId ctx.conversationId
            (freshState ctx now) ctx.accountId now)

/-- Output of `evaluate`: the ordered results, the engine with its updated
cache and tracker, and the states handed to the provider (in order). -/
structure EvalOutput where
  results : List EvalResult
  engine : RulesEngine
  saved : List ConversationState

/-- The end-to-end `evaluate` contract: hydration, pre-filtering, the rule
loop, and the post-evaluation provider writes (`save` for every result
carrying a state, which the source performs only when a provider is
configured). -/
def RulesEngine.evaluate (host : RegexHost) (eng : RulesEngine)
    (ctx : EvaluationContext) (now : Nat) : Except EvalError EvalOutput :=
  match evalRules host eng.semanticMatcher ctx now
      (RulesEngine.preFilterRules eng.rules (hydrate eng ctx now).1)
      (hydrate eng ctx now).1 (hydrate eng ctx now).2
      eng.thresholdTracker with
  | .error e => .error e
  | .ok out =>
    .ok
      { results := out.results
        engine :=
          { eng with
            stateCache := out.stateCache
            thresholdTracker := out.thresholdTracker }
        saved :=
          match eng.stateProvider with
          | some _ => out.results.filterMap (fun r => r.state)
          | none => [] }

/-! Observation helpers used to state the claims, and the concrete rules,
hosts and contexts of the claim scenarios. -/

/-- Results list of an evaluation outcome (`none` when an exception
escaped). -/
def evalResults (x : Except EvalError EvalOutput) : Option (List EvalResult) :=
  match x with
  | .ok out => some out.results
  | .error _ => none

/-- Matched flags of the results, in order (`none` when an exception
escaped). -/
def evalMatchedFlags (x : Except EvalError EvalOutput) : Option (List Bool) :=
  match x with
  | .ok out => some (out.results.map (fun r => r.matched))
  | .error _ => none

/-- Reasons of the results, in order. -/
def evalReasons (x : Except EvalError EvalOutput) :
    Option (List (Option String)) :=
  match x with
  | .ok out => some (out.results.map (fun r => r.reason))
  | .error _ => none

/-- Matched flags of one evaluation, with exceptions collapsed to `[]` (used
only to chain concrete scenarios). -/
def evalMatchedOf (x : Except EvalError EvalOutput) : List Bool :=
  match x with
  | .ok out => out.results.map (fun r => r.matched)
  | .error _ => []

/-- Engine carried out of an evaluation, with a fallback for the exception
case (used only to chain concrete scenarios). -/
def engineAfter (x : Except EvalError EvalOutput) (fallback : RulesEngine) :
    RulesEngine :=
  match x with
  | .ok out => out.engine
  | .error _ => fallback

/-- Fold accumulating the state of the last state-bearing result, from a
given initial value. -/
def lastStateFrom (init : Option ConversationState) (rs : List EvalResult) :
    Option ConversationState :=
  rs.foldl (fun acc r => match r.state with | some s => some s | none => acc)
    init

/-- Unwrap of a successful evaluation, with a fallback for the exception
case (used only to name concrete outputs in scenarios). -/
def outOf (x : Except EvalError EvalOutput) (fallback : EvalOutput) :
    EvalOutput :=
  match x with
  | .ok out => out
  | .error _ => fallback

/-- Unwrap of a successful loop iteration, with a fallback. -/
def stepOf (x : Except EvalError RuleStep) (fallback : RuleStep) : RuleStep :=
  match x with
  | .ok step => step
  | .error _ => fallback

/-- Unwrap of a successful loop run, with a fallback. -/
def loopOutOf (x : Except EvalError LoopOut) (fallback : LoopOut) : LoopOut :=
  match x with
  | .ok out => out
  | .error _ => fallback

/-- State carried by the last state-bearing result of a list. -/
def lastState (rs : List EvalResult) : Option ConversationState :=
  lastStateFrom none rs

/-- Tracker entry of one rule under one conversation key. -/
def trackerEntry (tr : ThresholdTracker) (key rid : String) :
    Option ThresholdEntry :=
  alGet ((alGet tr.trackers key).getD []) rid

/-- Whether a result records a fired rule that carries a flags block. -/
def firedWithFlags (r : EvalResult) : Bool :=
  r.matched &&
    (match r.rule with
     | some rule => rule.flags.isSome
     | none => false)

/-- Host whose regex engine compiles everything and matches nothing (regex
behaviour is irrelevant to the scenarios using it). -/
def hostTrivial : RegexHost :=
  ⟨fun _ _ => some (fun _ => none)⟩

/-- Host whose regex engine rejects the pattern `(` (an unbalanced group is a
`SyntaxError` in every PCRE-style engine) and otherwise matches the pattern
text literally. -/
def hostLiteral : RegexHost :=
  ⟨fun p _ =>
    if p = "(" then none
    else some (fun s => if strIncludes s p then some p else none)⟩

/-- Semantic matcher returning no hit for any query. -/
def smEmpty : SemanticMatcher := fun _ _ => []

/-- Concrete rules and contexts of the claim scenarios. -/
def c1rule : Rule :=
  { id := "c1", content := some ["alpha"], semantic := some ["greeting"],
    category := "phishing", severity := "low", action := "flag",
    enabled := true }

def c1ctx : EvaluationContext :=
  { tokenId := "tok", conversationId := "conv", message := "alpha beta" }

def c1engine : RulesEngine :=
  { rules := [c1rule], semanticMatcher := some smEmpty }

def c2passRule : Rule :=
  { id := "c2-pass", content := some ["x"], category := "spam",
    severity := "low", action := "pass", enabled := true }

def c2blockRule : Rule :=
  { id := "c2-block", content := some ["x"], category := "spam",
    severity := "low", action := "block", enabled := true }

def c3rule : Rule :=
  { id := "c3", flags := some { check := some ["armed"] },
    category := "phishing", severity := "high", action := "block",
    enabled := true }

def c3state : ConversationState :=
  { id := "tok:conv:", tokenId := "tok", conversationId := "conv",
    accountId := none, flags := [("armed", true)], flagHistory := [],
    expiresAt := 1000000, createdAt := 0, updatedAt := 0 }

def c3ctx : EvaluationContext :=
  { tokenId := "tok", conversationId := "conv", message := "anything",
    state := some c3state }

def c3engine : RulesEngine := { rules := [c3rule] }

def c4rule : Rule :=
  { id := "c4", content := some ["alpha"], pcre := some ["("],
    category := "xss", severity := "low", action := "flag", enabled := true }

def c4ctx : EvaluationContext :=
  { tokenId := "tok", conversationId := "conv", message := "alpha" }

def c4engine : RulesEngine := { rules := [c4rule] }

def c5rule : Rule :=
  { id := "c5-buy", content := some ["buy"], threshold := some 3,
    window := some 10, category := "spam", severity := "medium",
    action := "block", enabled := true }

def c5ctx : EvaluationContext :=
  { tokenId := "u1", conversationId := "conv1", message := "buy now" }

def c5engine0 : RulesEngine := { rules := RulesEngine.loadRules [c5rule] }

def c5run1 : Except EvalError EvalOutput :=
  RulesEngine.evaluate hostTrivial c5engine0 c5ctx 0

def c5run2 : Except EvalError EvalOutput :=
  RulesEngine.evaluate hostTrivial (engineAfter c5run1 c5engine0) c5ctx 5000

def c5run3 : Except EvalError EvalOutput :=
  RulesEngine.evaluate hostTrivial (engineAfter c5run2 c5engine0) c5ctx 9000

def c5run4 : Except EvalError EvalOutput :=
  RulesEngine.evaluate hostTrivial (engineAfter c5run3 c5engine0) c5ctx 20000

/-- Matched flags of the four threshold-scenario evaluations: the fourth run
happens 11 seconds after the third (at 9s), past the restarted window. -/
def c5scenario : List (List Bool) :=
  [evalMatchedOf c5run1, evalMatchedOf c5run2, evalMatchedOf c5run3,
    evalMatchedOf c5run4]

def c5wRule : Rule :=
  { id := "c5w", content := some ["z"], threshold := some 2,
    window := some 5, category := "spam", severity := "low",
    action := "alert", enabled := true }

def c6rule : Rule :=
  { id := "c6", content := some ["q"], threshold := some 2,
    window := some 10, category := "spam", severity := "low",
    action := "alert", enabled := true }

def c6state : ConversationState :=
  { id := "a:b:c:", tokenId := "a:b", conversationId := "c",
    accountId := some "", flags := [("seen", true)], flagHistory := [],
    expiresAt := 1000000, createdAt := 0, updatedAt := 0 }

def c8rule : Rule :=
  { id := "c8", content := some ["buy"], semantic := some ["purchase"],
    threshold := some 2, window := some 10, category := "spam",
    severity := "low", action := "flag", enabled := true }

def c8ctx : EvaluationContext :=
  { tokenId := "tok", conversationId := "conv", message := "buy it" }

def c8engine : RulesEngine :=
  { rules := [c8rule], semanticMatcher := some smEmpty }


/-- Precondition under which `StateCache.set` at `key` can never evict:
whatever happened at `key`, the cache stays strictly below capacity. -/
def cacheRoom (c : StateCache) (key : String) : Prop :=
  ((alGet c.cache key).isSome → c.cache.length < StateCache.maxSize) ∧
  ((alGet c.cache key).isNone = true → c.cache.length + 1 < StateCache.maxSize)

/-! Concrete inputs used by the witnesses. -/

def c4wRule : Rule :=
  { id := "c4w", pcre := some ["("], category := "xss", severity := "low",
    action := "flag", enabled := true }

def c7rule : Rule :=
  { id := "c7-crit", content := some ["x"], category := "malware",
    severity := "critical", action := "block", enabled := true }

def c7after : Rule :=
  { id := "c7-after", content := some ["x"], category := "spam",
    severity := "low", action := "alert", enabled := true }

def c7ctx : EvaluationContext :=
  { tokenId := "t", conversationId := "c", message := "x marks" }

def c7state : ConversationState := freshState c7ctx 0

def c7step : RuleStep :=
  stepOf (evalRule hostTrivial none c7ctx 0 c7rule c7state ⟨[], []⟩ ⟨[]⟩)
    ⟨none, c7state, ⟨[], []⟩, ⟨[]⟩, false⟩

def c7r : EvalResult := c7step.emitted.getD { matched := false }

def c8state : ConversationState := freshState c8ctx 0

def c8step : RuleStep :=
  stepOf (evalRule hostTrivial (some smEmpty) c8ctx 0 c8rule c8state
    ⟨[], []⟩ ⟨[]⟩) ⟨none, c8state, ⟨[], []⟩, ⟨[]⟩, false⟩

def c8r : EvalResult := c8step.emitted.getD { matched := true }

def c9ruleA : Rule :=
  { id := "c9-a", content := some ["verify"],
    flags := some { set := some ["s1"] }, category := "phishing",
    severity := "low", action := "pass", enabled := true }

def c9ruleB : Rule :=
  { id := "c9-b", content := some ["verify"], category := "phishing",
    severity := "low", action := "alert", enabled := true }

def c9ctx : EvaluationContext :=
  { tokenId := "t", conversationId := "c", message := "please verify" }

def c9state : ConversationState := freshState c9ctx 0

def c9out1 : LoopOut :=
  loopOutOf (evalRules hostTrivial none c9ctx 0 [c9ruleA] c9state
    ⟨[], []⟩ ⟨[]⟩) ⟨[], c9state, ⟨[], []⟩, ⟨[]⟩, false⟩

def c10rule : Rule :=
  { id := "c10", content := some ["verify"],
    flags := some { set := some ["seen"] }, category := "phishing",
    severity := "low", action := "pass", enabled := true }

def c10base : EvaluationContext :=
  { tokenId := "u", conversationId := "c", message := "verify now" }

def c10s0 : ConversationState := freshState c10base 0

def c10ctx : EvaluationContext := { c10base with state := some c10s0 }

def c10engine : RulesEngine := { rules := [c10rule] }

def c10out : EvalOutput :=
  outOf (RulesEngine.evaluate hostTrivial c10engine c10ctx 5) ⟨[], {}, []⟩

def c10r : EvalResult := c10out.results.headD { matched := false }

def c10stF : ConversationState := (lastState c10out.results).getD c10s0

def c10ctx2 : EvaluationContext :=
  { tokenId := "u", conversationId := "c", message := "hello" }

def c6wEngine : RulesEngine := { rules := [c6rule] }

def c6wCtx : EvaluationContext :=
  { tokenId := "w", conversationId := "conv", message := "q now" }

def c6wOut : EvalOutput :=
  outOf (RulesEngine.evaluate hostTrivial c6wEngine c6wCtx 3) ⟨[], {}, []⟩

/-! Association-list lemmas. -/

lemma alGet_cons {α : Type} (p : String × α) (l : List (String × α))
    (k : String) :
    alGet (p :: l) k = if p.1 = k then some p.2 else alGet l k := by
  by_cases h : p.1 = k <;> simp [alGet, List.find?_cons, h]

lemma alSet_cons {α : Type} (p : String × α) (l : List (String × α))
    (k : String) (v : α) :
    alSet (p :: l) k v =
      if p.1 = k then (k, v) :: l else p :: alSet l k v := by
  by_cases h : p.1 = k <;> simp [alSet, h]

lemma alDel_cons {α : Type} (p : String × α) (l : List (String × α))
    (k : String) :
    alDel (p :: l) k = if p.1 = k then alDel l k else p :: alDel l k := by
  by_cases h : p.1 = k <;> simp [alDel, List.filter_cons, h]

lemma alGet_alSet_self {α : Type} (l : List (String × α)) (k : String)
    (v : α) : alGet (alSet l k v) k = some v := by
  induction l with
  | nil => simp [alSet, alGet_cons]
  | cons p rest ih =>
    rw [alSet_cons]
    by_cases h : p.1 = k
    · simp [h, alGet_cons]
    · simp [alGet_cons, h, ih]

lemma alGet_alSet_ne {α : Type} (l : List (String × α)) (k k' : String)
    (v : α) (h : k' ≠ k) : alGet (alSet l k v) k' = alGet l k' := by
  induction l with
  | nil =>
    rw [alSet]
    rw [alGet_cons, if_neg (Ne.symm h)]
  | cons p rest ih =>
    rw [alSet_cons]
    by_cases hp : p.1 = k
    · subst hp
      rw [if_pos rfl]
      simp [alGet_cons, Ne.symm h]
    · rw [if_neg hp, alGet_cons, alGet_cons, ih]

lemma alGet_alDel_self {α : Type} (l : List (String × α)) (k : String) :
    alGet (alDel l k) k = none := by
  induction l with
  | nil => simp [alDel, alGet]
  | cons p rest ih =>
    rw [alDel_cons]
    by_cases hp : p.1 = k
    · simpa [hp] using ih
    · rw [if_neg hp, alGet_cons, if_neg hp]
      exact ih

lemma alGet_alDel_ne {α : Type} (l : List (String × α)) (k k' : String)
    (h : k' ≠ k) : alGet (alDel l k) k' = alGet l k' := by
  induction l with
  | nil => simp [alDel]
  | cons p rest ih =>
    rw [alDel_cons]
    by_cases hp : p.1 = k
    · rw [if_pos hp]
      have hpk : ¬ p.1 = k' := by rw [hp]; exact Ne.symm h
      rw [alGet_cons, if_neg hpk]
      exact ih
    · rw [if_neg hp, alGet_cons, alGet_cons, ih]

lemma alSet_length_present {α : Type} (l : List (String × α)) (k : String)
    (v : α) (h : (alGet l k).isSome) :
    (alSet l k v).length = l.length := by
  induction l with
  | nil => simp [alGet] at h
  | cons p rest ih =>
    rw [alSet_cons]
    by_cases hp : p.1 = k
    · simp [hp]
    · rw [alGet_cons, if_neg hp] at h
      simp [hp, ih h]

lemma alSet_length_absent {α : Type} (l : List (String × α)) (k : String)
    (v : α) (h : alGet l k = none) :
    (alSet l k v).length = l.length + 1 := by
  induction l with
  | nil => simp [alSet]
  | cons p rest ih =>
    rw [alSet_cons]
    by_cases hp : p.1 = k
    · rw [alGet_cons, if_pos hp] at h
      simp at h
    · rw [alGet_cons, if_neg hp] at h
      simp [hp, ih h]

lemma alGet_alSet_isSome {α : Type} (l : List (String × α)) (k : String)
    (v : α) : (alGet (alSet l k v) k).isSome := by
  rw [alGet_alSet_self]; rfl

/-! Component-level lemmas: state cache, threshold tracker. -/

/-- The two key derivations produce the same string. -/
lemma getKey_eq (tok conv : String) (acc : Option String) :
    ThresholdTracker.getKey tok conv acc = StateCache.getKey tok conv acc :=
  rfl

lemma cacheRoom_small (c : StateCache) (key : String)
    (h : c.cache.length + 1 < StateCache.maxSize) : cacheRoom c key :=
  ⟨fun _ => by omega, fun _ => h⟩

lemma cacheRoom_lt (c : StateCache) (key : String) (h : cacheRoom c key) :
    c.cache.length < StateCache.maxSize := by
  rcases hk : alGet c.cache key with _ | e
  · have := h.2 (by rw [hk]; rfl)
    omega
  · exact h.1 (by rw [hk]; rfl)

lemma StateCache.evictIfFull_small (cache : List (String × CacheEntry))
    (h : cache.length < StateCache.maxSize) :
    StateCache.evictIfFull cache = cache := by
  unfold StateCache.evictIfFull
  rw [if_neg (by omega)]

lemma StateCache.set_small (c : StateCache) (tok conv : String)
    (st : ConversationState) (acc : Option String) (now : Nat)
    (h : c.cache.length < StateCache.maxSize) :
    StateCache.set c tok conv st acc now =
      { c with cache := (alSet c.cache (StateCache.getKey tok conv acc)
          (⟨st, now, false⟩ : CacheEntry)) } := by
  unfold StateCache.set
  rw [StateCache.evictIfFull_small c.cache h]

lemma StateCache.set_writeQueue (c : StateCache) (tok conv : String)
    (st : ConversationState) (acc : Option String) (now : Nat) :
    (StateCache.set c tok conv st acc now).writeQueue = c.writeQueue := by
  unfold StateCache.set
  rfl

lemma StateCache.alGet_set_self (c : StateCache) (tok conv : String)
    (st : ConversationState) (acc : Option String) (now : Nat) :
    alGet (StateCache.set c tok conv st acc now).cache
      (StateCache.getKey tok conv acc) = some ⟨st, now, false⟩ := by
  unfold StateCache.set
  exact alGet_alSet_self ..

lemma StateCache.alGet_set_ne (c : StateCache) (tok conv : String)
    (st : ConversationState) (acc : Option String) (now : Nat) (k' : String)
    (hsmall : c.cache.length < StateCache.maxSize)
    (hne : k' ≠ StateCache.getKey tok conv acc) :
    alGet (StateCache.set c tok conv st acc now).cache k' =
      alGet c.cache k' := by
  rw [StateCache.set_small c tok conv st acc now hsmall]
  exact alGet_alSet_ne _ _ _ _ hne

lemma StateCache.set_length_present (c : StateCache) (tok conv : String)
    (st : ConversationState) (acc : Option String) (now : Nat)
    (hsmall : c.cache.length < StateCache.maxSize)
    (h : (alGet c.cache (StateCache.getKey tok conv acc)).isSome) :
    (StateCache.set c tok conv st acc now).cache.length = c.cache.length := by
  rw [StateCache.set_small c tok conv st acc now hsmall]
  exact alSet_length_present _ _ _ h

lemma StateCache.set_length_absent (c : StateCache) (tok conv : String)
    (st : ConversationState) (acc : Option String) (now : Nat)
    (hsmall : c.cache.length < StateCache.maxSize)
    (h : alGet c.cache (StateCache.getKey tok conv acc) = none) :
    (StateCache.set c tok conv st acc now).cache.length =
      c.cache.length + 1 := by
  rw [StateCache.set_small c tok conv st acc now hsmall]
  exact alSet_length_absent _ _ _ h

lemma StateCache.markDirty_of_entry (c : StateCache) (tok conv : String)
    (acc : Option String) (e : CacheEntry)
    (h : alGet c.cache (StateCache.getKey tok conv acc) = some e) :
    StateCache.markDirty c tok conv acc =
      { cache := (alSet c.cache (StateCache.getKey tok conv acc)
          ({ e with dirty := true } : CacheEntry)),
        writeQueue :=
          if c.writeQueue.contains (StateCache.getKey tok conv acc) then
            c.writeQueue
          else c.writeQueue ++ [StateCache.getKey tok conv acc] } := by
  unfold StateCache.markDirty
  rw [h]

lemma StateCache.alGet_markDirty_self (c : StateCache) (tok conv : String)
    (acc : Option String) (e : CacheEntry)
    (h : alGet c.cache (StateCache.getKey tok conv acc) = some e) :
    alGet (StateCache.markDirty c tok conv acc).cache
      (StateCache.getKey tok conv acc) = some { e with dirty := true } := by
  rw [StateCache.markDirty_of_entry c tok conv acc e h]
  exact alGet_alSet_self ..

lemma StateCache.alGet_markDirty_ne (c : StateCache) (tok conv : String)
    (acc : Option String) (k' : String)
    (hne : k' ≠ StateCache.getKey tok conv acc) :
    alGet (StateCache.markDirty c tok conv acc).cache k' =
      alGet c.cache k' := by
  unfold StateCache.markDirty
  rcases h : alGet c.cache (StateCache.getKey tok conv acc) with _ | e
  · rfl
  · exact alGet_alSet_ne _ _ _ _ hne

lemma StateCache.markDirty_length (c : StateCache) (tok conv : String)
    (acc : Option String) :
    (StateCache.markDirty c tok conv acc).cache.length = c.cache.length := by
  unfold StateCache.markDirty
  rcases h : alGet c.cache (StateCache.getKey tok conv acc) with _ | e
  · rfl
  · exact alSet_length_present _ _ _ (by rw [h]; rfl)

lemma StateCache.markDirty_queue_mem (c : StateCache) (tok conv : String)
    (acc : Option String) (e : CacheEntry)
    (h : alGet c.cache (StateCache.getKey tok conv acc) = some e) :
    StateCache.getKey tok conv acc ∈
      (StateCache.markDirty c tok conv acc).writeQueue := by
  rw [StateCache.markDirty_of_entry c tok conv acc e h]
  by_cases hc : c.writeQueue.contains (StateCache.getKey tok conv acc)
  · rw [if_pos hc]
    exact List.mem_of_elem_eq_true hc
  · rw [if_neg hc]
    exact List.mem_append_right _ (List.mem_singleton.mpr rfl)

lemma StateCache.markDirty_queue_mono (c : StateCache) (tok conv : String)
    (acc : Option String) (k : String) (h : k ∈ c.writeQueue) :
    k ∈ (StateCache.markDirty c tok conv acc).writeQueue := by
  unfold StateCache.markDirty
  rcases halg : alGet c.cache (StateCache.getKey tok conv acc) with _ | e
  · exact h
  · by_cases hc : c.writeQueue.contains (StateCache.getKey tok conv acc)
    · rw [if_pos hc]
      exact h
    · rw [if_neg hc]
      exact List.mem_append_left _ h

lemma ThresholdTracker.check_frame (tr : ThresholdTracker) (rule : Rule)
    (tok conv : String) (acc : Option String) (now : Nat) (k' : String)
    (hne : k' ≠ ThresholdTracker.getKey tok conv acc) :
    alGet (ThresholdTracker.check tr rule tok conv acc now).2.trackers k' =
      alGet tr.trackers k' := by
  unfold ThresholdTracker.check
  split
  · rfl
  · rcases halg : alGet ((alGet tr.trackers
        (ThresholdTracker.getKey tok conv acc)).getD []) rule.id with _ | e
    · simp only [halg]
      exact alGet_alSet_ne _ _ _ _ hne
    · simp only [halg]
      split
      · exact alGet_alSet_ne _ _ _ _ hne
      · split
        · exact alGet_alSet_ne _ _ _ _ hne
        · exact alGet_alSet_ne _ _ _ _ hne

lemma ThresholdTracker.check_reads_own_key (tr1 tr2 : ThresholdTracker)
    (rule : Rule) (tok conv : String) (acc : Option String) (now : Nat)
    (h : alGet tr1.trackers (ThresholdTracker.getKey tok conv acc) =
      alGet tr2.trackers (ThresholdTracker.getKey tok conv acc)) :
    (ThresholdTracker.check tr1 rule tok conv acc now).1 =
      (ThresholdTracker.check tr2 rule tok conv acc now).1 := by
  unfold ThresholdTracker.check
  split
  · rfl
  · rw [h]
    rcases halg : alGet ((alGet tr2.trackers
        (ThresholdTracker.getKey tok conv acc)).getD []) rule.id with _ | e
    · rfl
    · simp only
      split <;> [rfl; split <;> rfl]

lemma StateCache.get_reads_own_key (c1 c2 : StateCache) (tok conv : String)
    (acc : Option String) (now : Nat)
    (h : alGet c1.cache (StateCache.getKey tok conv acc) =
      alGet c2.cache (StateCache.getKey tok conv acc)) :
    (StateCache.get c1 tok conv acc now).1 =
      (StateCache.get c2 tok conv acc now).1 := by
  unfold StateCache.get
  rw [h]
  rcases halg : alGet c2.cache (StateCache.getKey tok conv acc) with _ | e
  · rfl
  · simp only
    split <;> rfl

/-! Lemmas about the evaluation loop. -/

/-- Case analysis of one loop iteration: either the rule was skipped or
threshold-gated (state and cache untouched, no break), or it fired (result
carries the post-mutation state, mutation via `updateState`, break exactly on
a critical block).  In both cases the tracker is only ever modified at the
conversation key. -/
lemma evalRule_cases (host : RegexHost) (sm : Option SemanticMatcher)
    (ctx : EvaluationContext) (now : Nat) (rule : Rule)
    (state : ConversationState) (c : StateCache) (tr : ThresholdTracker)
    (step : RuleStep)
    (hstep : evalRule host sm ctx now rule state c tr = .ok step) :
    (∀ k', k' ≠ ThresholdTracker.getKey ctx.tokenId ctx.conversationId
        ctx.accountId →
      alGet step.thresholdTracker.trackers k' = alGet tr.trackers k') ∧
    ((step.state = state ∧ step.stateCache = c ∧ step.broke = false ∧
        (step.emitted = none ∨
          ∃ r, step.emitted = some r ∧ r.matched = false ∧ r.state = none ∧
            r.rule = some rule)) ∨
      (∃ r, step.emitted = some r ∧ r.matched = true ∧ r.rule = some rule ∧
        r.state = some step.state ∧
        step.broke = (rule.action == "block" && rule.severity == "critical") ∧
        RulesEngine.updateState c rule ctx state now =
          (step.state, step.stateCache))) := by
  unfold evalRule at hstep
  split at hstep
  · exact absurd hstep (by simp)
  · cases hstep
    exact ⟨fun k' _ => rfl, Or.inl ⟨rfl, rfl, rfl, Or.inl rfl⟩⟩
  · split at hstep
    · split at hstep
      · split at hstep
        · cases hstep
          rename_i hmatched p1 tr1 hcheck p2 st1 c1 hupd
          refine ⟨?_, Or.inr ⟨_, rfl, rfl, rfl, rfl, rfl, hupd⟩⟩
          intro k' hk'
          have := ThresholdTracker.check_frame tr rule ctx.tokenId
            ctx.conversationId ctx.accountId now k' hk'
          rw [hcheck] at this
          exact this
      · cases hstep
        rename_i hmatched p1 tr1 hcheck
        refine ⟨?_, Or.inl ⟨rfl, rfl, rfl, Or.inr ⟨_, rfl, rfl, rfl, rfl⟩⟩⟩
        intro k' hk'
        have := ThresholdTracker.check_frame tr rule ctx.tokenId
          ctx.conversationId ctx.accountId now k' hk'
        rw [hcheck] at this
        exact this
    · cases hstep
      exact ⟨fun k' _ => rfl, Or.inl ⟨rfl, rfl, rfl, Or.inl rfl⟩⟩

lemma lastStateFrom_append (init : Option ConversationState)
    (l₁ l₂ : List EvalResult) :
    lastStateFrom init (l₁ ++ l₂) =
      lastStateFrom (lastStateFrom init l₁) l₂ := by
  unfold lastStateFrom
  rw [List.foldl_append]

lemma lastStateFrom_cons (init : Option ConversationState) (r : EvalResult)
    (l : List EvalResult) :
    lastStateFrom init (r :: l) =
      lastStateFrom
        (match r.state with | some s => some s | none => init) l := by
  rfl

/-- Composition of the evaluation loop over an appended rule list: the suffix
runs from the prefix's carried state (unless the prefix broke), and the
prefix's results are a prefix of the whole result list either way. -/
lemma evalRules_append (host : RegexHost) (sm : Option SemanticMatcher)
    (ctx : EvaluationContext) (now : Nat) (l₁ l₂ : List Rule) :
    ∀ (st : ConversationState) (c : StateCache) (tr : ThresholdTracker),
    evalRules host sm ctx now (l₁ ++ l₂) st c tr =
      match evalRules host sm ctx now l₁ st c tr with
      | .error e => .error e
      | .ok o =>
        if o.broke then .ok o
        else
          match evalRules host sm ctx now l₂ o.state o.stateCache
              o.thresholdTracker with
          | .error e => .error e
          | .ok o₂ =>
            .ok ⟨o.results ++ o₂.results, o₂.state, o₂.stateCache,
              o₂.thresholdTracker, o₂.broke⟩ := by
  induction l₁ with
  | nil =>
    intro st c tr
    simp only [List.nil_append, evalRules]
    cases h₂ : evalRules host sm ctx now l₂ st c tr with
    | error e => rfl
    | ok o₂ => simp
  | cons r l₁ ih =>
    intro st c tr
    simp only [List.cons_append, evalRules]
    cases hstep : evalRule host sm ctx now r st c tr with
    | error e => rfl
    | ok step =>
      dsimp only
      by_cases hb : step.broke
      · simp [hb]
      · simp only [Bool.not_eq_true] at hb
        simp only [hb, Bool.false_eq_true, if_false, List.append_eq]
        rw [ih]
        cases h₁ : evalRules host sm ctx now l₁ step.state step.stateCache
            step.thresholdTracker with
        | error e => rfl
        | ok o₁ =>
          dsimp only
          by_cases hb₁ : o₁.broke
          · simp [hb₁]
          · simp only [Bool.not_eq_true] at hb₁
            simp only [hb₁, Bool.false_eq_true, if_false]
            cases h₂ : evalRules host sm ctx now l₂ o₁.state o₁.stateCache
                o₁.thresholdTracker with
            | error e => rfl
            | ok o₂ => simp [List.append_assoc]

lemma lastStateFrom_state_some (init : Option ConversationState)
    (r : EvalResult) (l : List EvalResult) (s : ConversationState)
    (h : r.state = some s) :
    lastStateFrom init (r :: l) = lastStateFrom (some s) l := by
  rw [lastStateFrom_cons, h]

lemma lastStateFrom_state_none (init : Option ConversationState)
    (r : EvalResult) (l : List EvalResult) (h : r.state = none) :
    lastStateFrom init (r :: l) = lastStateFrom init l := by
  rw [lastStateFrom_cons, h]

lemma updateState_none (c : StateCache) (rule : Rule)
    (ctx : EvaluationContext) (state : ConversationState) (now : Nat)
    (hf : rule.flags = none) :
    RulesEngine.updateState c rule ctx state now = (state, c) := by
  unfold RulesEngine.updateState
  rw [hf]

lemma updateState_some (c : StateCache) (rule : Rule)
    (ctx : EvaluationContext) (state : ConversationState) (now : Nat)
    (rf : RuleFlags) (hf : rule.flags = some rf) :
    RulesEngine.updateState c rule ctx state now =
      (flagsUpdatedState rule rf state now,
        StateCache.markDirty
          (StateCache.set c ctx.tokenId ctx.conversationId
            (flagsUpdatedState rule rf state now) ctx.accountId now)
          ctx.tokenId ctx.conversationId ctx.accountId) := by
  unfold RulesEngine.updateState
  rw [hf]

/-- Effect of `updateState` on the cache when the rule carries flags: the
conversation key holds the fresh state, freshly accessed and dirty; every
other key is untouched; the length grows only when the key was absent; the
key is enqueued for flushing. -/
lemma updateState_flags_facts (c : StateCache) (rule : Rule)
    (ctx : EvaluationContext) (state : ConversationState) (now : Nat)
    (rf : RuleFlags) (hf : rule.flags = some rf)
    (hroom : cacheRoom c (StateCache.getKey ctx.tokenId ctx.conversationId
      ctx.accountId)) :
    alGet (RulesEngine.updateState c rule ctx state now).2.cache
        (StateCache.getKey ctx.tokenId ctx.conversationId ctx.accountId) =
      some ⟨(RulesEngine.updateState c rule ctx state now).1, now, true⟩ ∧
    StateCache.getKey ctx.tokenId ctx.conversationId ctx.accountId ∈
      (RulesEngine.updateState c rule ctx state now).2.writeQueue ∧
    (∀ k', k' ≠ StateCache.getKey ctx.tokenId ctx.conversationId
        ctx.accountId →
      alGet (RulesEngine.updateState c rule ctx state now).2.cache k' =
        alGet c.cache k') ∧
    ((alGet c.cache (StateCache.getKey ctx.tokenId ctx.conversationId
        ctx.accountId)).isSome →
      (RulesEngine.updateState c rule ctx state now).2.cache.length =
        c.cache.length) ∧
    ((alGet c.cache (StateCache.getKey ctx.tokenId ctx.conversationId
        ctx.accountId)).isNone = true →
      (RulesEngine.updateState c rule ctx state now).2.cache.length =
        c.cache.length + 1) ∧
    (∀ q, q ∈ c.writeQueue →
      q ∈ (RulesEngine.updateState c rule ctx state now).2.writeQueue) := by
  have hlt := cacheRoom_lt _ _ hroom
  rw [updateState_some c rule ctx state now rf hf]
  have hset := StateCache.alGet_set_self c ctx.tokenId ctx.conversationId
    (flagsUpdatedState rule rf state now) ctx.accountId now
  refine ⟨?_, ?_, ?_, ?_, ?_, ?_⟩
  · exact StateCache.alGet_markDirty_self _ _ _ _ _ hset
  · exact StateCache.markDirty_queue_mem _ _ _ _ _ hset
  · intro k' hk'
    rw [StateCache.alGet_markDirty_ne _ _ _ _ _ hk']
    exact StateCache.alGet_set_ne _ _ _ _ _ _ _ hlt hk'
  · intro hpres
    rw [StateCache.markDirty_length]
    exact StateCache.set_length_present _ _ _ _ _ _ hlt hpres
  · intro habs
    rw [StateCache.markDirty_length]
    exact StateCache.set_length_absent _ _ _ _ _ _ hlt
      (Option.isNone_iff_eq_none.mp habs)
  · intro q hq
    apply StateCache.markDirty_queue_mono
    rw [StateCache.set_writeQueue]
    exact hq

/-- Evolution of the shared mutable components across the evaluation loop:
the threshold tracker is only modified at the conversation key, and the state
cache is either untouched (no rule with flags fired; any state recorded in a
result is the carried state) or holds exactly the final carried state at the
conversation key, dirty and enqueued, with all other keys untouched and the
length grown by at most the one inserted key. -/
lemma evalRules_cache_evolution (host : RegexHost)
    (sm : Option SemanticMatcher) (ctx : EvaluationContext) (now : Nat) :
    ∀ (rules : List Rule) (st : ConversationState) (c : StateCache)
      (tr : ThresholdTracker) (out : LoopOut),
    evalRules host sm ctx now rules st c tr = .ok out →
    cacheRoom c (StateCache.getKey ctx.tokenId ctx.conversationId
      ctx.accountId) →
    (∀ k', k' ≠ StateCache.getKey ctx.tokenId ctx.conversationId
        ctx.accountId →
      alGet out.thresholdTracker.trackers k' = alGet tr.trackers k') ∧
    ((out.stateCache = c ∧ out.state = st ∧
        (∀ r ∈ out.results, firedWithFlags r = false) ∧
        (∀ init, lastStateFrom init out.results = init ∨
          lastStateFrom init out.results = some st)) ∨
      (alGet out.stateCache.cache (StateCache.getKey ctx.tokenId
          ctx.conversationId ctx.accountId) = some ⟨out.state, now, true⟩ ∧
        StateCache.getKey ctx.tokenId ctx.conversationId ctx.accountId ∈
          out.stateCache.writeQueue ∧
        (∀ k', k' ≠ StateCache.getKey ctx.tokenId ctx.conversationId
            ctx.accountId →
          alGet out.stateCache.cache k' = alGet c.cache k') ∧
        ((alGet c.cache (StateCache.getKey ctx.tokenId ctx.conversationId
            ctx.accountId)).isSome →
          out.stateCache.cache.length = c.cache.length) ∧
        ((alGet c.cache (StateCache.getKey ctx.tokenId ctx.conversationId
            ctx.accountId)).isNone = true →
          out.stateCache.cache.length = c.cache.length + 1) ∧
        (∀ q, q ∈ c.writeQueue → q ∈ out.stateCache.writeQueue) ∧
        (∀ init, lastStateFrom init out.results = some out.state))) := by
  intro rules
  induction rules with
  | nil =>
    intro st c tr out hev hroom
    cases hev
    exact ⟨fun k' _ => rfl,
      Or.inl ⟨rfl, rfl, by simp, fun init => Or.inl rfl⟩⟩
  | cons rule rest ih =>
    intro st c tr out hev hroom
    unfold evalRules at hev
    cases hstep : evalRule host sm ctx now rule st c tr with
    | error e => rw [hstep] at hev; exact absurd hev (by simp)
    | ok step =>
      rw [hstep] at hev
      dsimp only at hev
      obtain ⟨htrfr, hcases⟩ :=
        evalRule_cases host sm ctx now rule st c tr step hstep
      have htrfr' : ∀ k', k' ≠ StateCache.getKey ctx.tokenId
          ctx.conversationId ctx.accountId →
          alGet step.thresholdTracker.trackers k' = alGet tr.trackers k' := by
        intro k' hk'
        exact htrfr k' (by rw [getKey_eq]; exact hk')
      by_cases hb : step.broke = true
      · rw [if_pos hb] at hev
        cases hev
        rcases hcases with ⟨hst, hc, hbroke, _⟩ | ⟨r, hemit, hmatched,
            hrrule, hrstate, hbroke, hupd⟩
        · rw [hbroke] at hb; exact absurd hb (by simp)
        · rcases hflags : rule.flags with _ | rf
          · rw [updateState_none c rule ctx st now hflags] at hupd
            injection hupd with hst hc
            refine ⟨htrfr', Or.inl ⟨hc.symm, hst.symm, ?_, ?_⟩⟩
            · intro r' hr'
              rw [hemit] at hr'
              simp only [Option.toList_some, List.mem_singleton] at hr'
              subst hr'
              simp [firedWithFlags, hmatched, hrrule, hflags]
            · intro init
              rw [hemit]
              simp only [Option.toList_some]
              rw [lastStateFrom_state_some init r [] step.state hrstate]
              exact Or.inr (by rw [← hst]; rfl)
          · have facts := updateState_flags_facts c rule ctx st now rf
              hflags hroom
            rw [hupd] at facts
            dsimp only at facts
            obtain ⟨hkey, hqueue, hfr, hlenS, hlenN, hqmono⟩ := facts
            refine ⟨htrfr', Or.inr ⟨hkey, hqueue, hfr, hlenS, hlenN,
              hqmono, ?_⟩⟩
            intro init
            rw [hemit]
            simp only [Option.toList_some]
            rw [lastStateFrom_state_some init r [] step.state hrstate]
            rfl
      · rw [if_neg hb] at hev
        cases hrec : evalRules host sm ctx now rest step.state
            step.stateCache step.thresholdTracker with
        | error e => rw [hrec] at hev; exact absurd hev (by simp)
        | ok o =>
          rw [hrec] at hev
          dsimp only at hev
          cases hev
          rcases hcases with ⟨hst, hc, hbroke, hem⟩ | ⟨r, hemit, hmatched,
              hrrule, hrstate, hbroke, hupd⟩
          · subst hst
            subst hc
            obtain ⟨rtrfr, rcases_⟩ := ih step.state step.stateCache
              step.thresholdTracker o hrec hroom
            have hheadLast : ∀ init,
                lastStateFrom init (step.emitted.toList ++ o.results) =
                  lastStateFrom init o.results := by
              intro init
              rcases hem with hnone | ⟨r, hsome, _, hrst, _⟩
              · rw [hnone]; rfl
              · rw [hsome]
                simp only [Option.toList_some]
                rw [List.singleton_append,
                  lastStateFrom_state_none init r o.results hrst]
            have hheadFired : ∀ r', r' ∈ step.emitted.toList →
                firedWithFlags r' = false := by
              intro r' hr'
              rcases hem with hnone | ⟨r, hsome, hrm, _, _⟩
              · rw [hnone] at hr'; simp at hr'
              · rw [hsome] at hr'
                simp only [Option.toList_some, List.mem_singleton] at hr'
                subst hr'
                simp [firedWithFlags, hrm]
            refine ⟨fun k' hk' => (rtrfr k' hk').trans (htrfr' k' hk'), ?_⟩
            rcases rcases_ with ⟨roc, ros, rfired, rlast⟩ |
                ⟨rkey, rqueue, rfr, rlenS, rlenN, rqmono, rlast⟩
            · refine Or.inl ⟨roc, ros, ?_, ?_⟩
              · intro r' hr'
                rcases List.mem_append.mp hr' with h | h
                · exact hheadFired r' h
                · exact rfired r' h
              · intro init
                rw [hheadLast init]
                exact rlast init
            · exact Or.inr ⟨rkey, rqueue, rfr, rlenS, rlenN, rqmono,
                fun init => by rw [hheadLast init]; exact rlast init⟩
          · rcases hflags : rule.flags with _ | rf
            · rw [updateState_none c rule ctx st now hflags] at hupd
              injection hupd with hst hc
              subst hst
              subst hc
              obtain ⟨rtrfr, rcases_⟩ := ih step.state step.stateCache
                step.thresholdTracker o hrec hroom
              have hheadLast : ∀ init,
                  lastStateFrom init (step.emitted.toList ++ o.results) =
                    lastStateFrom (some step.state) o.results := by
                intro init
                rw [hemit]
                simp only [Option.toList_some]
                rw [List.singleton_append,
                  lastStateFrom_state_some init r o.results step.state
                    hrstate]
              refine ⟨fun k' hk' => (rtrfr k' hk').trans (htrfr' k' hk'),
                ?_⟩
              rcases rcases_ with ⟨roc, ros, rfired, rlast⟩ |
                  ⟨rkey, rqueue, rfr, rlenS, rlenN, rqmono, rlast⟩
              · refine Or.inl ⟨roc, ros, ?_, ?_⟩
                · intro r' hr'
                  rcases List.mem_append.mp hr' with h | h
                  · rw [hemit] at h
                    simp only [Option.toList_some, List.mem_singleton] at h
                    subst h
                    simp [firedWithFlags, hmatched, hrrule, hflags]
                  · exact rfired r' h
                · intro init
                  rw [hheadLast init]
                  rcases rlast (some step.state) with h | h
                  · rw [h]; exact Or.inr rfl
                  · rw [h]; exact Or.inr rfl
              · exact Or.inr ⟨rkey, rqueue, rfr, rlenS, rlenN, rqmono,
                  fun init => by
                    rw [hheadLast init]; exact rlast (some step.state)⟩
            · have facts := updateState_flags_facts c rule ctx st now rf
                hflags hroom
              rw [hupd] at facts
              dsimp only at facts
              obtain ⟨hkey, hqueue, hfr, hlenS, hlenN, hqmono⟩ := facts
              have hroom1 : cacheRoom step.stateCache
                  (StateCache.getKey ctx.tokenId ctx.conversationId
                    ctx.accountId) := by
                constructor
                · intro _
                  rcases hks : (alGet c.cache (StateCache.getKey ctx.tokenId
                      ctx.conversationId ctx.accountId)).isSome with _ | _
                  · have habs : (alGet c.cache (StateCache.getKey
                        ctx.tokenId ctx.conversationId
                        ctx.accountId)).isNone = true := by
                      rcases halg : alGet c.cache (StateCache.getKey
                          ctx.tokenId ctx.conversationId ctx.accountId) with
                          _ | e
                      · rfl
                      · rw [halg] at hks; simp at hks
                    rw [hlenN habs]
                    exact hroom.2 habs
                  · rw [hlenS hks]
                    exact hroom.1 hks
                · intro habs
                  rw [hkey] at habs
                  simp at habs
              obtain ⟨rtrfr, rcases_⟩ := ih step.state step.stateCache
                step.thresholdTracker o hrec hroom1
              have hheadLast : ∀ init,
                  lastStateFrom init (step.emitted.toList ++ o.results) =
                    lastStateFrom (some step.state) o.results := by
                intro init
                rw [hemit]
                simp only [Option.toList_some]
                rw [List.singleton_append,
                  lastStateFrom_state_some init r o.results step.state
                    hrstate]
              refine ⟨fun k' hk' => (rtrfr k' hk').trans (htrfr' k' hk'),
                Or.inr ?_⟩
              dsimp only
              rcases rcases_ with ⟨roc, ros, rfired, rlast⟩ |
                  ⟨rkey, rqueue, rfr, rlenS, rlenN, rqmono, rlast⟩
              · rw [roc, ros]
                refine ⟨hkey, hqueue, hfr, hlenS, hlenN, hqmono, ?_⟩
                intro init
                rw [hheadLast init]
                rcases rlast (some step.state) with h | h
                · rw [h]
                · rw [h]
              · refine ⟨rkey, rqueue, ?_, ?_, ?_, ?_, ?_⟩
                · intro k' hk'
                  rw [rfr k' hk']
                  exact hfr k' hk'
                · intro hpres
                  rw [rlenS (by rw [hkey]; rfl)]
                  exact hlenS hpres
                · intro habs
                  rw [rlenS (by rw [hkey]; rfl)]
                  exact hlenN habs
                · intro q hq
                  exact rqmono q (hqmono q hq)
                · intro init
                  rw [hheadLast init]
                  exact rlast (some step.state)

lemma StateCache.get_snd_facts (c : StateCache) (tok conv : String)
    (acc : Option String) (now : Nat) :
    (∀ k', k' ≠ StateCache.getKey tok conv acc →
      alGet (StateCache.get c tok conv acc now).2.cache k' =
        alGet c.cache k') ∧
    (StateCache.get c tok conv acc now).2.cache.length = c.cache.length ∧
    ((alGet (StateCache.get c tok conv acc now).2.cache
        (StateCache.getKey tok conv acc)).isSome =
      (alGet c.cache (StateCache.getKey tok conv acc)).isSome) ∧
    (StateCache.get c tok conv acc now).2.writeQueue = c.writeQueue := by
  unfold StateCache.get
  rcases halg : alGet c.cache (StateCache.getKey tok conv acc) with _ | e
  · exact ⟨fun _ _ => rfl, rfl, by rw [halg], rfl⟩
  · dsimp only
    by_cases httl : now - e.lastAccess < StateCache.ttl
    · rw [if_pos httl]
      refine ⟨?_, ?_, ?_, rfl⟩
      · intro k' hk'
        exact alGet_alSet_ne _ _ _ _ hk'
      · exact alSet_length_present _ _ _ (by rw [halg]; rfl)
      · rw [alGet_alSet_self]
        rfl
    · rw [if_neg httl]
      exact ⟨fun _ _ => rfl, rfl, by rw [halg], rfl⟩

lemma StateCache.get_hit (c : StateCache) (tok conv : String)
    (acc : Option String) (now : Nat) (e : CacheEntry)
    (hentry : alGet c.cache (StateCache.getKey tok conv acc) = some e)
    (httl : now - e.lastAccess < StateCache.ttl) :
    StateCache.get c tok conv acc now =
      (some e.state,
        { c with cache := (alSet c.cache (StateCache.getKey tok conv acc)
            ({ e with lastAccess := now } : CacheEntry)) }) := by
  unfold StateCache.get
  rw [hentry]
  dsimp only
  rw [if_pos httl]

lemma cacheRoom_of_parts (c c' : StateCache) (key : String)
    (hlen : c'.cache.length = c.cache.length)
    (hpres : (alGet c'.cache key).isSome = (alGet c.cache key).isSome)
    (h : cacheRoom c key) : cacheRoom c' key := by
  constructor
  · intro hs
    rw [hlen]
    exact h.1 (by rw [← hpres]; exact hs)
  · intro hn
    rw [hlen]
    refine h.2 ?_
    rcases halg : alGet c.cache key with _ | e
    · rfl
    · rcases halg' : alGet c'.cache key with _ | e'
      · rw [halg'] at hpres
        rw [halg] at hpres
        simp at hpres
      · rw [halg'] at hn
        simp at hn

/-- Effects of hydration on the cache: only the conversation key is touched,
capacity room is preserved, and the write queue is untouched. -/
lemma hydrate_facts (eng : RulesEngine) (ctx : EvaluationContext) (now : Nat)
    (hroom : cacheRoom eng.stateCache (StateCache.getKey ctx.tokenId
      ctx.conversationId ctx.accountId)) :
    (∀ k', k' ≠ StateCache.getKey ctx.tokenId ctx.conversationId
        ctx.accountId →
      alGet (hydrate eng ctx now).2.cache k' =
        alGet eng.stateCache.cache k') ∧
    cacheRoom (hydrate eng ctx now).2 (StateCache.getKey ctx.tokenId
      ctx.conversationId ctx.accountId) ∧
    (∀ q, q ∈ eng.stateCache.writeQueue →
      q ∈ (hydrate eng ctx now).2.writeQueue) := by
  unfold hydrate
  rcases hst : ctx.state with _ | s0
  · obtain ⟨gfr, glen, gpres, gqueue⟩ := StateCache.get_snd_facts
      eng.stateCache ctx.tokenId ctx.conversationId ctx.accountId now
    have hroom1 : cacheRoom (StateCache.get eng.stateCache ctx.tokenId
        ctx.conversationId ctx.accountId now).2
        (StateCache.getKey ctx.tokenId ctx.conversationId ctx.accountId) :=
      cacheRoom_of_parts _ _ _ glen gpres hroom
    rcases hget : StateCache.get eng.stateCache ctx.tokenId
        ctx.conversationId ctx.accountId now with ⟨res, c1⟩
    rw [hget] at gfr glen gpres gqueue hroom1
    dsimp only at gfr glen gpres gqueue hroom1 ⊢
    cases res with
    | some s => exact ⟨gfr, hroom1, fun q hq => by rw [gqueue]; exact hq⟩
    | none =>
      cases hprov : (match eng.stateProvider with
          | some p => p.get ctx.tokenId ctx.conversationId ctx.accountId
          | none => none) with
      | some s => exact ⟨gfr, hroom1, fun q hq => by rw [gqueue]; exact hq⟩
      | none =>
        have hlt := cacheRoom_lt _ _ hroom1
        refine ⟨?_, ?_, ?_⟩
        · intro k' hk'
          rw [StateCache.alGet_set_ne _ _ _ _ _ _ _ hlt hk']
          exact gfr k' hk'
        · constructor
          · intro _
            rcases hpres1 : (alGet c1.cache (StateCache.getKey ctx.tokenId
                ctx.conversationId ctx.accountId)) with _ | e
            · rw [StateCache.set_length_absent _ _ _ _ _ _ hlt hpres1]
              exact hroom1.2 (by rw [hpres1]; rfl)
            · rw [StateCache.set_length_present _ _ _ _ _ _ hlt
                (by rw [hpres1]; rfl)]
              exact hroom1.1 (by rw [hpres1]; rfl)
          · intro habs
            rw [StateCache.alGet_set_self] at habs
            simp at habs
        · intro q hq
          rw [StateCache.set_writeQueue]
          rw [gqueue]
          exact hq
  · exact ⟨fun _ _ => rfl, hroom, fun _ hq => hq⟩

/-- Cancellation of a separator character: two decompositions around a
character absent from both left parts coincide. -/
lemma append_colon_cancel (l1 : List Char) :
    ∀ (l2 m1 m2 : List Char), ':' ∉ l1 → ':' ∉ l2 →
    l1 ++ ':' :: m1 = l2 ++ ':' :: m2 → l1 = l2 ∧ m1 = m2 := by
  induction l1 with
  | nil =>
    intro l2 m1 m2 _ h2 he
    cases l2 with
    | nil =>
      simp only [List.nil_append] at he
      injection he with _ ht
      exact ⟨rfl, ht⟩
    | cons b t =>
      simp only [List.nil_append, List.cons_append] at he
      injection he with hb _
      exact absurd (hb ▸ List.mem_cons_self b t) h2
  | cons a t ih =>
    intro l2 m1 m2 h1 h2 he
    cases l2 with
    | nil =>
      simp only [List.cons_append, List.nil_append] at he
      injection he with hb _
      subst hb
      exact absurd (List.mem_cons_self ':' t) h1
    | cons b t2 =>
      simp only [List.cons_append] at he
      injection he with hb ht
      obtain ⟨h3, h4⟩ := ih t2 m1 m2
        (fun hmem => h1 (List.mem_cons_of_mem a hmem))
        (fun hmem => h2 (List.mem_cons_of_mem b hmem)) ht
      exact ⟨by rw [hb, h3], h4⟩

lemma stringDataInj (s t : String) (h : s.data = t.data) : s = t := by
  cases s
  cases t
  exact congrArg String.mk h

/-- Key injectivity on colon-free components. -/
lemma getKey_inj (tok1 conv1 tok2 conv2 : String) (a1 a2 : Option String)
    (h1 : ':' ∉ tok1.data) (h2 : ':' ∉ conv1.data)
    (h3 : ':' ∉ tok2.data) (h4 : ':' ∉ conv2.data)
    (he : StateCache.getKey tok1 conv1 a1 = StateCache.getKey tok2 conv2 a2) :
    tok1 = tok2 ∧ conv1 = conv2 ∧ a1.getD "" = a2.getD "" := by
  unfold StateCache.getKey at he
  have hd := congrArg String.data he
  simp only [String.data_append, List.append_assoc] at hd
  have hd' : tok1.data ++ ':' :: (conv1.data ++ ':' :: (a1.getD "").data) =
      tok2.data ++ ':' :: (conv2.data ++ ':' :: (a2.getD "").data) := by
    simpa using hd
  obtain ⟨e1, e2⟩ := append_colon_cancel tok1.data
    tok2.data _ _ h1 h3 hd'
  obtain ⟨e3, e4⟩ := append_colon_cancel conv1.data conv2.data _ _ h2 h4 e2
  exact ⟨stringDataInj _ _ e1, stringDataInj _ _ e3, stringDataInj _ _ e4⟩

lemma pcreEvery_error (host : RegexHost) (message flagsStr p : String)
    (post : List String) (hcomp : host.compile p flagsStr = none) :
    ∀ (pre : List String) (mp : Option MatchedPat),
    (∀ q ∈ pre, ∃ exec m, host.compile q flagsStr = some exec ∧
      exec message = some m) →
    pcreEvery host message flagsStr mp (pre ++ p :: post) =
      .error (.regexSyntax p) := by
  intro pre
  induction pre with
  | nil =>
    intro mp _
    simp only [List.nil_append, pcreEvery, hcomp]
  | cons q rest ih =>
    intro mp hpre
    obtain ⟨exec, m, hc, hm⟩ := hpre q (List.mem_cons_self q rest)
    simp only [List.cons_append, pcreEvery, hc, hm]
    exact ih _ (fun q' hq' => hpre q' (List.mem_cons_of_mem q hq'))

lemma hydrate_ctx_state (eng : RulesEngine) (ctx : EvaluationContext)
    (now : Nat) (s0 : ConversationState) (hst : ctx.state = some s0) :
    hydrate eng ctx now = (s0, eng.stateCache) := by
  unfold hydrate
  rw [hst]

lemma hydrate_cache_hit (eng : RulesEngine) (ctx : EvaluationContext)
    (now2 : Nat) (e : CacheEntry) (hst : ctx.state = none)
    (hentry : alGet eng.stateCache.cache (StateCache.getKey ctx.tokenId
      ctx.conversationId ctx.accountId) = some e)
    (httl : now2 - e.lastAccess < StateCache.ttl) :
    (hydrate eng ctx now2).1 = e.state := by
  unfold hydrate
  rw [hst]
  dsimp only
  rw [StateCache.get_hit eng.stateCache ctx.tokenId ctx.conversationId
    ctx.accountId now2 e hentry httl]

lemma applyFlagList_hist (rid : String) (now : Nat) (mark : String)
    (v : Bool) :
    ∀ (l : List String) (acc : List (String × Bool) × List FlagHistoryEntry),
    (applyFlagList rid now mark v acc l).2 =
      acc.2 ++ l.map (fun f => ⟨f, mark, rid, now⟩) := by
  intro l
  induction l with
  | nil => intro acc; simp [applyFlagList]
  | cons f t ih =>
    intro acc
    unfold applyFlagList at ih ⊢
    rw [List.foldl_cons, ih]
    simp

lemma applyFlagList_flags_notmem (rid : String) (now : Nat) (mark : String)
    (v : Bool) :
    ∀ (l : List String) (acc : List (String × Bool) × List FlagHistoryEntry)
      (f : String), f ∉ l →
    alGet (applyFlagList rid now mark v acc l).1 f = alGet acc.1 f := by
  intro l
  induction l with
  | nil => intro acc f _; rfl
  | cons g t ih =>
    intro acc f hf
    unfold applyFlagList at ih ⊢
    rw [List.foldl_cons, ih _ _ (fun hm => hf (List.mem_cons_of_mem g hm))]
    exact alGet_alSet_ne _ _ _ _ (fun he => hf (he ▸ List.mem_cons_self g t))

lemma applyFlagBlock_hist (rid : String) (now : Nat) (mark : String)
    (v : Bool) (acc : List (String × Bool) × List FlagHistoryEntry)
    (l : Option (List String)) :
    (applyFlagBlock rid now mark v acc l).2 =
      acc.2 ++ (l.getD []).map (fun f => ⟨f, mark, rid, now⟩) := by
  cases l with
  | none => simp [applyFlagBlock]
  | some l => exact applyFlagList_hist rid now mark v l acc

lemma applyFlagBlock_flags_notmem (rid : String) (now : Nat) (mark : String)
    (v : Bool) (acc : List (String × Bool) × List FlagHistoryEntry)
    (l : Option (List String)) (f : String) (hf : f ∉ l.getD []) :
    alGet (applyFlagBlock rid now mark v acc l).1 f = alGet acc.1 f := by
  cases l with
  | none => rfl
  | some l => exact applyFlagList_flags_notmem rid now mark v l acc f hf

/-! The claims. -/

/-- C1, counterexample: the claim says a rule declaring a semantic stage
yields matched=true only if the semantic stage passes, even when content or
pcre already passed.  On the code, `c1rule` declares both content and
semantic, the configured matcher returns no hit for it, its content stage
passes — and the rule still yields a matched=true result. -/
theorem c1_semantic_gate_counterexample :
    c1rule.content = some ["alpha"] ∧ c1rule.semantic = some ["greeting"] ∧
    c1engine.semanticMatcher.isSome = true ∧
    (smEmpty c1ctx.message (jsOrRat c1rule.semanticThreshold 0.85)).find?
      (fun m => m.ruleId == c1rule.id) = none ∧
    evalMatchedFlags (RulesEngine.evaluate hostTrivial c1engine c1ctx 0) =
      some [true] :=
  ⟨rfl, rfl, rfl, rfl, rfl⟩

/-- C1 (amended): the semantic stage gates matching only when no earlier
stage passed.  When the matcher returns no hit for the rule, a match already
established by content/pcre survives the semantic stage unchanged, and a rule
with nothing matched so far is skipped; when the matcher returns a hit for
the rule, the stage records the similarity and matches regardless of the
earlier stages. -/
theorem c1_semantic_stage_amended (matcher : SemanticMatcher) (rule : Rule)
    (message : String) (mp : Option MatchedPat)
    (hsem : jsNonempty rule.semantic = true) :
    ((matcher message (jsOrRat rule.semanticThreshold 0.85)).find?
        (fun m => m.ruleId == rule.id) = none →
      semanticStage (some matcher) rule message (true, mp) =
        some (true, mp, none) ∧
      semanticStage (some matcher) rule message (false, mp) = none) ∧
    (∀ hit, (matcher message (jsOrRat rule.semanticThreshold 0.85)).find?
        (fun m => m.ruleId == rule.id) = some hit →
      ∀ earlier : Bool, semanticStage (some matcher) rule message
          (earlier, mp) =
        some (true, some (MatchedPat.semanticPct hit.similarity),
          some hit.similarity)) := by
  constructor
  · intro hnone
    constructor
    · unfold semanticStage
      rw [hsem]
      dsimp only
      rw [hnone]
      rfl
    · unfold semanticStage
      rw [hsem]
      dsimp only
      rw [hnone]
      rfl
  · intro hit hhit earlier
    unfold semanticStage
    rw [hsem]
    dsimp only
    rw [hhit]
    rfl

/-- C1, witness for the amended theorem at a concrete rule, matcher and
message. -/
theorem c1_semantic_stage_amended_witness :
    semanticStage (some smEmpty) c1rule "alpha beta"
        (true, some (MatchedPat.keywords "alpha")) =
      some (true, some (MatchedPat.keywords "alpha"), none) ∧
    semanticStage (some smEmpty) c1rule "alpha beta"
        (false, some (MatchedPat.keywords "alpha")) = none :=
  (c1_semantic_stage_amended smEmpty c1rule "alpha beta"
    (some (MatchedPat.keywords "alpha")) rfl).1 rfl

/-- C2, code bug: `getRulePriority` computes
`actionPriority[rule.action] || 5`; the table value 0 for action `pass` is
falsy, so a pass-rule gets action weight 5 instead of 0 and sorts after a
block-rule of equal type cost (51 versus 41), the reverse of the documented
order. -/
theorem c2_pass_priority_code_bug :
    RulesEngine.getRulePriority c2passRule = 51 ∧
    RulesEngine.getRulePriority c2blockRule = 41 ∧
    RulesEngine.loadRules [c2passRule, c2blockRule] =
      [c2blockRule, c2passRule] :=
  ⟨rfl, rfl, by decide⟩

/-- C3, counterexample: the claim says an eligible rule whose only declared
input is a non-empty `flags.check` is considered matched.  On the code,
`c3rule` has only `flags.check`, its pre-filter holds (the flag is true in
the supplied state), yet `evaluate` emits no result at all. -/
theorem c3_pure_stateful_counterexample :
    c3rule.content = none ∧ c3rule.pcre = none ∧ c3rule.semantic = none ∧
    c3rule.flags = some { check := some ["armed"] } ∧
    RulesEngine.preFilterRules [c3rule] c3state = [c3rule] ∧
    evalResults (RulesEngine.evaluate hostTrivial c3engine c3ctx 0) =
      some [] :=
  ⟨rfl, rfl, rfl, rfl, by decide, rfl⟩

/-- C3 (amended): a rule with no effective content, pcre or semantic input
(each absent or empty, semantic also when no matcher is configured) is never
considered matched: whatever its `flags.check`, the loop body skips it,
emitting nothing and leaving state, cache and tracker untouched. -/
theorem c3_pure_stateful_amended (host : RegexHost)
    (sm : Option SemanticMatcher) (ctx : EvaluationContext) (now : Nat)
    (rule : Rule) (state : ConversationState) (c : StateCache)
    (tr : ThresholdTracker)
    (hc : jsNonempty rule.content = false)
    (hp : jsNonempty rule.pcre = false)
    (hs : jsNonempty rule.semantic = false ∨ sm = none) :
    evalRule host sm ctx now rule state c tr =
      .ok ⟨none, state, c, tr, false⟩ := by
  have hrs : runStages host sm rule ctx.message =
      .ok (some (false, none, none)) := by
    unfold runStages contentStage pcreStage semanticStage
    rw [hc, hp]
    dsimp only
    rcases hs with hs | hs
    · cases sm with
      | none => rfl
      | some matcher => rw [hs]; rfl
    · rw [hs]
      rfl
  unfold evalRule
  rw [hrs]
  rfl

/-- C3, witness for the amended theorem: the pure-stateful rule of the
counterexample is skipped by one loop iteration. -/
theorem c3_pure_stateful_amended_witness :
    evalRule hostTrivial none c3ctx 0 c3rule c3state ⟨[], []⟩ ⟨[]⟩ =
      .ok ⟨none, c3state, ⟨[], []⟩, ⟨[]⟩, false⟩ :=
  c3_pure_stateful_amended hostTrivial none c3ctx 0 c3rule c3state
    ⟨[], []⟩ ⟨[]⟩ rfl rfl (Or.inl rfl)

/-- C4, counterexample: the claim says no exception escapes `evaluate` and an
invalid pcre pattern makes the rule skip its pcre stage with a `reason`.  On
the code, compiling the invalid pattern `(` throws out of `evaluate` (modelled
as the error outcome): no result is produced and no reason is reported. -/
theorem c4_invalid_regex_counterexample :
    hostLiteral.compile "(" "gi" = none ∧
    RulesEngine.evaluate hostLiteral c4engine c4ctx 0 =
      .error (.regexSyntax "(") :=
  ⟨rfl, rfl⟩

/-- C4 (amended): when an eligible rule reaches its pcre stage (here: content
absent) and the patterns before an invalid one all match, the compile error
of the invalid pattern propagates out of the evaluation loop: the rule does
not skip the stage and no diagnostic result is emitted. -/
theorem c4_invalid_regex_amended (host : RegexHost)
    (sm : Option SemanticMatcher) (ctx : EvaluationContext) (now : Nat)
    (rule : Rule) (rest : List Rule) (state : ConversationState)
    (c : StateCache) (tr : ThresholdTracker) (pre post : List String)
    (p : String)
    (hcontent : jsNonempty rule.content = false)
    (hpcre : rule.pcre = some (pre ++ p :: post))
    (hcomp : host.compile p
      (if rule.nocase != some false then "gi" else "g") = none)
    (hpre : ∀ q ∈ pre, ∃ exec m,
      host.compile q (if rule.nocase != some false then "gi" else "g") =
        some exec ∧ exec ctx.message = some m) :
    evalRules host sm ctx now (rule :: rest) state c tr =
      .error (.regexSyntax p) := by
  have hne : jsNonempty rule.pcre = true := by
    rw [hpcre]
    simp [jsNonempty]
  have hstage : pcreStage host rule ctx.message (false, none) =
      .error (.regexSyntax p) := by
    unfold pcreStage
    rw [hne]
    dsimp only
    rw [hpcre]
    dsimp only [Option.getD]
    rw [pcreEvery_error host ctx.message _ p post hcomp pre none hpre]
    rfl
  have hcs : contentStage rule ctx.message (false, none) =
      some (false, none) := by
    unfold contentStage
    rw [hcontent]
    rfl
  have hrs : runStages host sm rule ctx.message =
      .error (.regexSyntax p) := by
    unfold runStages
    rw [hcs]
    dsimp only
    rw [hstage]
  unfold evalRules evalRule
  rw [hrs]

/-- C4, witness for the amended theorem: a rule whose only pcre pattern is
invalid makes one loop run propagate the compile error. -/
theorem c4_invalid_regex_amended_witness :
    evalRules hostLiteral none c4ctx 0 [c4wRule] (freshState c4ctx 0)
      ⟨[], []⟩ ⟨[]⟩ = .error (.regexSyntax "(") :=
  c4_invalid_regex_amended hostLiteral none c4ctx 0 c4wRule []
    (freshState c4ctx 0) ⟨[], []⟩ ⟨[]⟩ [] [] "(" rfl rfl rfl (by simp)

/-- C5: the threshold check fires a fresh window (no entry, or now past the
window end) exactly when the threshold is 1, storing a count-1 entry ending
`window` seconds later; within a live window it increments the count and
fires — deleting the entry — exactly when the count reaches the threshold.
Consequently the concrete scenario rule (threshold 3, window 10s) over four
evaluations at 0s, 5s, 9s and 20s yields matched flags false, false, true,
false. -/
theorem c5_threshold_drain (rule : Rule) (t w now : Nat)
    (tr : ThresholdTracker) (tok conv : String) (acc : Option String)
    (hth : rule.threshold = some t) (ht1 : 1 ≤ t)
    (hwin : rule.window = some w) (hw1 : 1 ≤ w) :
    ((trackerEntry tr (ThresholdTracker.getKey tok conv acc) rule.id = none ∨
        (∃ e, trackerEntry tr (ThresholdTracker.getKey tok conv acc)
          rule.id = some e ∧ e.windowEnd < now)) →
      (ThresholdTracker.check tr rule tok conv acc now).1 = decide (t = 1) ∧
      trackerEntry (ThresholdTracker.check tr rule tok conv acc now).2
          (ThresholdTracker.getKey tok conv acc) rule.id =
        some ⟨1, now, now + w * 1000⟩) ∧
    (∀ e, trackerEntry tr (ThresholdTracker.getKey tok conv acc) rule.id =
        some e → now ≤ e.windowEnd →
      (ThresholdTracker.check tr rule tok conv acc now).1 =
        decide (t ≤ e.count + 1) ∧
      (t ≤ e.count + 1 →
        trackerEntry (ThresholdTracker.check tr rule tok conv acc now).2
          (ThresholdTracker.getKey tok conv acc) rule.id = none) ∧
      (e.count + 1 < t →
        trackerEntry (ThresholdTracker.check tr rule tok conv acc now).2
          (ThresholdTracker.getKey tok conv acc) rule.id =
          some ⟨e.count + 1, e.firstMatch, e.windowEnd⟩)) ∧
    c5scenario = [[false], [false], [true], [false]] := by
  have htr : jsOrNat rule.threshold 0 = t := by
    rw [hth]
    unfold jsOrNat
    dsimp only
    rw [if_neg (by omega)]
  have hwr : jsOrNat rule.window 0 = w := by
    rw [hwin]
    unfold jsOrNat
    dsimp only
    rw [if_neg (by omega)]
  have hcond : (decide (jsOrNat rule.threshold 0 = 0) ||
      decide (jsOrNat rule.window 0 = 0)) = false := by
    rw [htr, hwr]
    simp
    omega
  refine ⟨?_, ?_, by decide⟩
  · intro hfresh
    unfold ThresholdTracker.check
    rw [hcond]
    simp only [Bool.false_eq_true, if_false]
    rcases hfresh with hnone | ⟨e, hsome, hwe⟩
    · unfold trackerEntry at hnone
      rw [hnone]
      dsimp only
      rw [htr, hwr]
      unfold trackerEntry
      constructor
      · rfl
      · rw [alGet_alSet_self]
        dsimp only [Option.getD]
        rw [alGet_alSet_self]
    · unfold trackerEntry at hsome
      rw [hsome]
      dsimp only
      rw [if_pos hwe, htr, hwr]
      unfold trackerEntry
      constructor
      · rfl
      · rw [alGet_alSet_self]
        dsimp only [Option.getD]
        rw [alGet_alSet_self]
  · intro e hsome hwe
    unfold ThresholdTracker.check
    rw [hcond]
    simp only [Bool.false_eq_true, if_false]
    unfold trackerEntry at hsome
    rw [hsome]
    dsimp only
    rw [if_neg (by omega), htr]
    by_cases hcount : t ≤ e.count + 1
    · rw [if_pos hcount]
      unfold trackerEntry
      refine ⟨by simp [hcount], fun _ => ?_, fun hlt => by omega⟩
      rw [alGet_alSet_self]
      dsimp only [Option.getD]
      rw [alGet_alDel_self]
    · rw [if_neg hcount]
      unfold trackerEntry
      refine ⟨by simp [hcount], fun hle => absurd hle hcount, fun _ => ?_⟩
      rw [alGet_alSet_self]
      dsimp only [Option.getD]
      rw [alGet_alSet_self]

/-- C5, witness: a fresh tracker with a threshold-2, window-5s rule does not
fire on the first qualifying call and stores a count-1 entry whose window
ends 5000 ms later. -/
theorem c5_threshold_drain_witness :
    (ThresholdTracker.check ⟨[]⟩ c5wRule "u" "c" none 7).1 =
      decide (2 = 1) ∧
    trackerEntry (ThresholdTracker.check ⟨[]⟩ c5wRule "u" "c" none 7).2
        (ThresholdTracker.getKey "u" "c" none) c5wRule.id =
      some ⟨1, 7, 7 + 5 * 1000⟩ :=
  (c5_threshold_drain c5wRule 2 5 7 ⟨[]⟩ "u" "c" none rfl (by decide) rfl
    (by decide)).1 (Or.inl rfl)

/-- C6, counterexample: two distinct conversation tuples — ("a:b","c") and
("a","b:c"), both with empty account — produce the same key, so the second
tuple's threshold check reads the counter written by the first (a threshold-2
rule fires on the second tuple's first qualifying call) and the state cache
returns the first tuple's state to the second; absent and empty accountId
also collide. -/
theorem c6_isolation_counterexample :
    ("a:b", "c", (some "" : Option String)) ≠
      ("a", "b:c", (some "" : Option String)) ∧
    ThresholdTracker.getKey "a:b" "c" (some "") =
      ThresholdTracker.getKey "a" "b:c" (some "") ∧
    StateCache.getKey "t" "c" none = StateCache.getKey "t" "c" (some "") ∧
    (ThresholdTracker.check ⟨[]⟩ c6rule "a:b" "c" (some "") 0).1 = false ∧
    (ThresholdTracker.check (ThresholdTracker.check ⟨[]⟩ c6rule "a:b" "c"
        (some "") 0).2 c6rule "a" "b:c" (some "") 1000).1 = true ∧
    (StateCache.get (StateCache.set ⟨[], []⟩ "a:b" "c" c6state (some "") 0)
        "a" "b:c" (some "") 1000).1 = some c6state := by
  decide

/-- C6 (amended): isolation holds at the level of keys, not tuples.  An
`evaluate` call only writes cache and tracker entries at its own key (below
cache capacity); the key determines componentwise-equal tuples whenever the
token, conversation and account contain no ':' (with absent and empty
account identified); and both reads — cache lookup and threshold check —
depend only on the entry at the caller's own key. -/
theorem c6_isolation_amended (host : RegexHost) (eng : RulesEngine)
    (ctx : EvaluationContext) (now : Nat) (out : EvalOutput)
    (hev : RulesEngine.evaluate host eng ctx now = .ok out)
    (hcap : eng.stateCache.cache.length + 1 < StateCache.maxSize) :
    (∀ k', k' ≠ StateCache.getKey ctx.tokenId ctx.conversationId
        ctx.accountId →
      alGet out.engine.stateCache.cache k' =
        alGet eng.stateCache.cache k' ∧
      alGet out.engine.thresholdTracker.trackers k' =
        alGet eng.thresholdTracker.trackers k') ∧
    (∀ tok1 conv1 tok2 conv2 : String, ∀ a1 a2 : Option String,
      ':' ∉ tok1.data → ':' ∉ conv1.data → ':' ∉ tok2.data →
      ':' ∉ conv2.data →
      StateCache.getKey tok1 conv1 a1 = StateCache.getKey tok2 conv2 a2 →
      tok1 = tok2 ∧ conv1 = conv2 ∧ a1.getD "" = a2.getD "") ∧
    (∀ c1 c2 : StateCache, ∀ tok conv : String, ∀ acc : Option String,
      ∀ now2 : Nat,
      alGet c1.cache (StateCache.getKey tok conv acc) =
        alGet c2.cache (StateCache.getKey tok conv acc) →
      (StateCache.get c1 tok conv acc now2).1 =
        (StateCache.get c2 tok conv acc now2).1) ∧
    (∀ tr1 tr2 : ThresholdTracker, ∀ rule : Rule, ∀ tok conv : String,
      ∀ acc : Option String, ∀ now2 : Nat,
      alGet tr1.trackers (ThresholdTracker.getKey tok conv acc) =
        alGet tr2.trackers (ThresholdTracker.getKey tok conv acc) →
      (ThresholdTracker.check tr1 rule tok conv acc now2).1 =
        (ThresholdTracker.check tr2 rule tok conv acc now2).1) := by
  refine ⟨?_,
    fun tok1 conv1 tok2 conv2 a1 a2 h1 h2 h3 h4 he =>
      getKey_inj tok1 conv1 tok2 conv2 a1 a2 h1 h2 h3 h4 he,
    fun c1 c2 tok conv acc now2 h =>
      StateCache.get_reads_own_key c1 c2 tok conv acc now2 h,
    fun tr1 tr2 rule tok conv acc now2 h =>
      ThresholdTracker.check_reads_own_key tr1 tr2 rule tok conv acc now2 h⟩
  have hroomC : cacheRoom eng.stateCache (StateCache.getKey ctx.tokenId
      ctx.conversationId ctx.accountId) := cacheRoom_small _ _ hcap
  obtain ⟨hfr1, hroom1, _⟩ := hydrate_facts eng ctx now hroomC
  unfold RulesEngine.evaluate at hev
  cases hlo : evalRules host eng.semanticMatcher ctx now
      (RulesEngine.preFilterRules eng.rules (hydrate eng ctx now).1)
      (hydrate eng ctx now).1 (hydrate eng ctx now).2
      eng.thresholdTracker with
  | error e => rw [hlo] at hev; exact absurd hev (by simp)
  | ok lo =>
    rw [hlo] at hev
    dsimp only at hev
    cases hev
    obtain ⟨trfr, cdisj⟩ := evalRules_cache_evolution host
      eng.semanticMatcher ctx now _ _ _ _ lo hlo hroom1
    intro k' hk'
    refine ⟨?_, trfr k' hk'⟩
    rcases cdisj with ⟨hoc, _, _, _⟩ | ⟨_, _, hfrk, _, _, _, _⟩
    · rw [hoc]
      exact hfr1 k' hk'
    · rw [hfrk k' hk']
      exact hfr1 k' hk'

/-- C6, witness for the amended theorem: after a concrete evaluation, an
unrelated key holds the same cache and tracker entries as before. -/
theorem c6_isolation_amended_witness :
    alGet c6wOut.engine.stateCache.cache "zzz" =
      alGet c6wEngine.stateCache.cache "zzz" ∧
    alGet c6wOut.engine.thresholdTracker.trackers "zzz" =
      alGet c6wEngine.thresholdTracker.trackers "zzz" :=
  (c6_isolation_amended hostTrivial c6wEngine c6wCtx 3 c6wOut rfl
    (by decide)).1 "zzz" (by decide)

/-- C7: when a rule with action block and severity critical fires (its loop
step emits a matched result), the step's break flag is set and the loop over
this rule and any remaining rules returns exactly that one result: no
subsequent rule is evaluated and none appears in the result list. -/
theorem c7_critical_block_early_exit (host : RegexHost)
    (sm : Option SemanticMatcher) (ctx : EvaluationContext) (now : Nat)
    (rule : Rule) (rest : List Rule) (state : ConversationState)
    (c : StateCache) (tr : ThresholdTracker) (step : RuleStep)
    (r : EvalResult)
    (hblock : rule.action = "block") (hcrit : rule.severity = "critical")
    (hstep : evalRule host sm ctx now rule state c tr = .ok step)
    (hemit : step.emitted = some r) (hm : r.matched = true) :
    step.broke = true ∧
    evalRules host sm ctx now (rule :: rest) state c tr =
      .ok ⟨[r], step.state, step.stateCache, step.thresholdTracker, true⟩ := by
  obtain ⟨_, hcases⟩ :=
    evalRule_cases host sm ctx now rule state c tr step hstep
  rcases hcases with ⟨_, _, _, hem⟩ |
      ⟨r', hemit', hm', _, _, hbroke, _⟩
  · rcases hem with hnone | ⟨r', hsome, hm', _, _⟩
    · rw [hnone] at hemit
      exact absurd hemit (by simp)
    · rw [hsome] at hemit
      injection hemit with h
      subst h
      rw [hm'] at hm
      exact absurd hm (by simp)
  · have hbr : step.broke = true := by
      rw [hbroke, hblock, hcrit]
      rfl
    refine ⟨hbr, ?_⟩
    unfold evalRules
    rw [hstep]
    dsimp only
    rw [if_pos hbr, hemit]
    rfl

/-- C7, witness: a concrete critical block rule fires and the loop with a
pending second rule returns the single result. -/
theorem c7_critical_block_early_exit_witness :
    c7step.broke = true ∧
    evalRules hostTrivial none c7ctx 0 [c7rule, c7after] c7state
        ⟨[], []⟩ ⟨[]⟩ =
      .ok ⟨[c7r], c7step.state, c7step.stateCache, c7step.thresholdTracker,
        true⟩ :=
  c7_critical_block_early_exit hostTrivial none c7ctx 0 c7rule [c7after]
    c7state ⟨[], []⟩ ⟨[]⟩ c7step c7r rfl rfl rfl rfl rfl

/-- C8, counterexample: the claim says matched=false results are emitted only
for rules that passed the stages they declare.  On the code, `c8rule`
declares a semantic stage, the matcher returns no hit for it, yet a
threshold-gated matched=false result (with the threshold reason) is emitted
because the content stage alone set the matched flag. -/
theorem c8_nonmatch_emission_counterexample :
    c8rule.semantic = some ["purchase"] ∧
    (smEmpty c8ctx.message (jsOrRat c8rule.semanticThreshold 0.85)).find?
      (fun m => m.ruleId == c8rule.id) = none ∧
    evalMatchedFlags (RulesEngine.evaluate hostTrivial c8engine c8ctx 0) =
      some [false] ∧
    evalReasons (RulesEngine.evaluate hostTrivial c8engine c8ctx 0) =
      some [some "Threshold not met (2 in 10s)"] :=
  ⟨rfl, rfl, rfl, rfl⟩

/-- C8 (amended): one loop iteration emits a matched=false result iff the
staged matcher left the rule matched (as implemented: a failing semantic
stage does not unset a match established by content/pcre) and the threshold
check returned false; such a result carries the reason
`Threshold not met (X in Ys)` and no state, and the iteration leaves the
carried state and the state cache unchanged (only the tracker advances) with
no break. -/
theorem c8_nonmatch_emission_amended (host : RegexHost)
    (sm : Option SemanticMatcher) (ctx : EvaluationContext) (now : Nat)
    (rule : Rule) (state : ConversationState) (c : StateCache)
    (tr : ThresholdTracker) (step : RuleStep)
    (hstep : evalRule host sm ctx now rule state c tr = .ok step) :
    ((∃ r, step.emitted = some r ∧ r.matched = false) ↔
      ((∃ mp sim, runStages host sm rule ctx.message =
          .ok (some (true, mp, sim))) ∧
        (ThresholdTracker.check tr rule ctx.tokenId ctx.conversationId
          ctx.accountId now).1 = false)) ∧
    (∀ r, step.emitted = some r → r.matched = false →
      r.reason = some (thresholdReason rule) ∧ r.state = none ∧
      r.rule = some rule ∧ step.state = state ∧ step.stateCache = c ∧
      step.thresholdTracker = (ThresholdTracker.check tr rule ctx.tokenId
        ctx.conversationId ctx.accountId now).2 ∧
      step.broke = false) := by
  unfold evalRule at hstep
  split at hstep
  · exact absurd hstep (by simp)
  · cases hstep
    rename_i heq
    refine ⟨⟨fun hex => ?_, fun hrhs => ?_⟩, fun r hr _ => ?_⟩
    · obtain ⟨r, hr, _⟩ := hex
      exact absurd hr (by simp)
    · obtain ⟨⟨mp, sim, hrs⟩, _⟩ := hrhs
      rw [heq] at hrs
      exact absurd hrs (by simp)
    · exact absurd hr (by simp)
  · split at hstep
    · split at hstep
      · cases hstep
        rename_i hsc matchedv mpv simv heq hmv hchv tr1 hcheck
        refine ⟨⟨fun hex => ?_, fun hrhs => ?_⟩, fun r hr hmf => ?_⟩
        · obtain ⟨r, hr, hmf⟩ := hex
          injection hr with h
          subst h
          exact absurd hmf (by simp)
        · obtain ⟨_, hch⟩ := hrhs
          rw [hcheck] at hch
          exact absurd hch (by simp)
        · injection hr with h
          subst h
          exact absurd hmf (by simp)
      · cases hstep
        rename_i hsc matchedv mpv simv heq hmv hchv tr1 hcheck
        refine ⟨⟨fun _ => ?_, fun _ => ?_⟩, fun r hr hmf => ?_⟩
        · constructor
          · refine ⟨mpv, simv, ?_⟩
            rw [hmv] at heq
            exact heq
          · rw [hcheck]
        · exact ⟨_, rfl, rfl⟩
        · injection hr with h
          subst h
          exact ⟨rfl, rfl, rfl, rfl, rfl, by rw [hcheck], rfl⟩
    · cases hstep
      rename_i heq hmv
      refine ⟨⟨fun hex => ?_, fun hrhs => ?_⟩, fun r hr _ => ?_⟩
      · obtain ⟨r, hr, _⟩ := hex
        exact absurd hr (by simp)
      · obtain ⟨⟨mp, sim, hrs⟩, _⟩ := hrhs
        rw [heq] at hrs
        injection hrs with h
        injection h with h
        injection h with h1 h2
        rw [← h1] at hmv
        exact absurd rfl hmv
      · exact absurd hr (by simp)

/-- C8, witness for the amended theorem: the concrete gated iteration of the
counterexample rule carries the reason and leaves state and cache
untouched. -/
theorem c8_nonmatch_emission_amended_witness :
    c8r.reason = some (thresholdReason c8rule) ∧ c8r.state = none ∧
    c8r.rule = some c8rule ∧ c8step.state = c8state ∧
    c8step.stateCache = ⟨[], []⟩ ∧
    c8step.thresholdTracker = (ThresholdTracker.check ⟨[]⟩ c8rule
      c8ctx.tokenId c8ctx.conversationId c8ctx.accountId 0).2 ∧
    c8step.broke = false :=
  (c8_nonmatch_emission_amended hostTrivial (some smEmpty) c8ctx 0 c8rule
    c8state ⟨[], []⟩ ⟨[]⟩ c8step rfl).2 c8r rfl rfl

/-- C9: copy-on-write across the loop.  The results a prefix of the rule
list produced — including the state snapshots they carry — are unchanged by
appending further rules: the loop over the appended list is the prefix's
results followed by the suffix's run from the prefix's carried state (or
just the prefix's output if it broke).  Moreover a firing rule with flags
builds its new state from copies: the flag history is the old one with the
new entries appended, flags outside the set and unset lists keep their old
values, and the identity fields are preserved while `updatedAt` is
refreshed. -/
theorem c9_copy_on_write (host : RegexHost) (sm : Option SemanticMatcher)
    (ctx : EvaluationContext) (now : Nat) (rules₁ rules₂ : List Rule)
    (state : ConversationState) (c : StateCache) (tr : ThresholdTracker)
    (out₁ : LoopOut)
    (h₁ : evalRules host sm ctx now rules₁ state c tr = .ok out₁) :
    (out₁.broke = true →
      evalRules host sm ctx now (rules₁ ++ rules₂) state c tr = .ok out₁) ∧
    (out₁.broke = false →
      evalRules host sm ctx now (rules₁ ++ rules₂) state c tr =
        (evalRules host sm ctx now rules₂ out₁.state out₁.stateCache
          out₁.thresholdTracker).map (fun out₂ =>
            (⟨out₁.results ++ out₂.results, out₂.state, out₂.stateCache,
              out₂.thresholdTracker, out₂.broke⟩ : LoopOut))) ∧
    (∀ rule : Rule, ∀ rf : RuleFlags, ∀ stX : ConversationState,
      ∀ cX : StateCache, rule.flags = some rf →
      (RulesEngine.updateState cX rule ctx stX now).1.flagHistory =
        stX.flagHistory ++
          ((rf.set.getD []).map (fun f =>
            (⟨f, "set", rule.id, now⟩ : FlagHistoryEntry)) ++
           (rf.unset.getD []).map (fun f =>
            (⟨f, "unset", rule.id, now⟩ : FlagHistoryEntry))) ∧
      (∀ f, f ∉ rf.set.getD [] → f ∉ rf.unset.getD [] →
        alGet (RulesEngine.updateState cX rule ctx stX now).1.flags f =
          alGet stX.flags f) ∧
      (RulesEngine.updateState cX rule ctx stX now).1.id = stX.id ∧
      (RulesEngine.updateState cX rule ctx stX now).1.createdAt =
        stX.createdAt ∧
      (RulesEngine.updateState cX rule ctx stX now).1.updatedAt = now) := by
  refine ⟨?_, ?_, ?_⟩
  · intro hb
    rw [evalRules_append host sm ctx now rules₁ rules₂ state c tr, h₁]
    dsimp only
    rw [if_pos hb]
  · intro hb
    rw [evalRules_append host sm ctx now rules₁ rules₂ state c tr, h₁]
    dsimp only
    rw [if_neg (by simp [hb])]
    cases h₂ : evalRules host sm ctx now rules₂ out₁.state out₁.stateCache
        out₁.thresholdTracker with
    | error e => rfl
    | ok o₂ => rfl
  · intro rule rf stX cX hf
    rw [updateState_some cX rule ctx stX now rf hf]
    dsimp only
    unfold flagsUpdatedState
    refine ⟨?_, ?_, rfl, rfl, rfl⟩
    · rw [applyFlagBlock_hist, applyFlagBlock_hist]
      dsimp only
      rw [List.append_assoc]
    · intro f hfs hfu
      rw [applyFlagBlock_flags_notmem _ _ _ _ _ _ _ hfu,
        applyFlagBlock_flags_notmem _ _ _ _ _ _ _ hfs]

/-- C9, witness: the loop over a firing flags-rule followed by a second rule
decomposes into the first rule's output and the suffix run from its carried
state. -/
theorem c9_copy_on_write_witness :
    evalRules hostTrivial none c9ctx 0 ([c9ruleA] ++ [c9ruleB]) c9state
        ⟨[], []⟩ ⟨[]⟩ =
      (evalRules hostTrivial none c9ctx 0 [c9ruleB] c9out1.state
        c9out1.stateCache c9out1.thresholdTracker).map (fun out₂ =>
          (⟨c9out1.results ++ out₂.results, out₂.state, out₂.stateCache,
            out₂.thresholdTracker, out₂.broke⟩ : LoopOut)) :=
  (c9_copy_on_write hostTrivial none c9ctx 0 [c9ruleA] [c9ruleB] c9state
    ⟨[], []⟩ ⟨[]⟩ c9out1 rfl).2.1 rfl

/-- C10: with `ctx.state` supplied (the surface that bypasses cache and
provider on hydration), the flag mutations of firing flags-rules are still
written through: the engine's cache afterwards holds the final mutated state
at the conversation key, freshly accessed and dirty, the key is enqueued for
flushing, and a later hydration for the same tuple without `ctx.state`,
within the cache TTL, returns exactly that mutated state. -/
theorem c10_writethrough_with_ctx_state (host : RegexHost)
    (eng : RulesEngine) (ctx : EvaluationContext) (now now2 : Nat)
    (s0 : ConversationState) (out : EvalOutput) (r : EvalResult)
    (rule : Rule) (rf : RuleFlags)
    (hst : ctx.state = some s0)
    (hcap : eng.stateCache.cache.length + 1 < StateCache.maxSize)
    (hev : RulesEngine.evaluate host eng ctx now = .ok out)
    (hr : r ∈ out.results) (hm : r.matched = true)
    (hrule : r.rule = some rule) (hf : rule.flags = some rf)
    (httl : now2 - now < StateCache.ttl) :
    (lastState out.results).isSome = true ∧
    (∀ stF, lastState out.results = some stF →
      alGet out.engine.stateCache.cache (StateCache.getKey ctx.tokenId
        ctx.conversationId ctx.accountId) = some ⟨stF, now, true⟩ ∧
      StateCache.getKey ctx.tokenId ctx.conversationId ctx.accountId ∈
        out.engine.stateCache.writeQueue ∧
      (∀ ctx2 : EvaluationContext, ctx2.tokenId = ctx.tokenId →
        ctx2.conversationId = ctx.conversationId →
        ctx2.accountId = ctx.accountId → ctx2.state = none →
        (hydrate out.engine ctx2 now2).1 = stF)) := by
  unfold RulesEngine.evaluate at hev
  rw [hydrate_ctx_state eng ctx now s0 hst] at hev
  dsimp only at hev
  cases hlo : evalRules host eng.semanticMatcher ctx now
      (RulesEngine.preFilterRules eng.rules s0) s0 eng.stateCache
      eng.thresholdTracker with
  | error e => rw [hlo] at hev; exact absurd hev (by simp)
  | ok lo =>
    rw [hlo] at hev
    dsimp only at hev
    cases hev
    obtain ⟨_, cdisj⟩ := evalRules_cache_evolution host eng.semanticMatcher
      ctx now _ _ _ _ lo hlo (cacheRoom_small _ _ hcap)
    rcases cdisj with ⟨_, _, hnofired, _⟩ |
        ⟨hkey, hqueue, _, _, _, _, hlast⟩
    · have htrue : firedWithFlags r = true := by
        unfold firedWithFlags
        rw [hm, hrule]
        dsimp only
        rw [hf]
        rfl
      have hff := hnofired r hr
      rw [htrue] at hff
      exact absurd hff (by simp)
    · have hls : lastState lo.results = some lo.state := hlast none
      refine ⟨by rw [hls]; rfl, ?_⟩
      intro stF hstF
      rw [hls] at hstF
      injection hstF with h
      subst h
      refine ⟨hkey, hqueue, ?_⟩
      intro ctx2 h1 h2 h3 h4
      exact hydrate_cache_hit _ ctx2 now2 ⟨lo.state, now, true⟩ h4
        (by rw [h1, h2, h3]; exact hkey) httl

/-- C10, witness: a concrete evaluation with a supplied `ctx.state` leaves
the mutated state dirty in the cache, and a later hydration without
`ctx.state` returns it. -/
theorem c10_writethrough_with_ctx_state_witness :
    alGet c10out.engine.stateCache.cache
        (StateCache.getKey "u" "c" none) = some ⟨c10stF, 5, true⟩ ∧
    (hydrate c10out.engine c10ctx2 7).1 = c10stF := by
  have h := (c10_writethrough_with_ctx_state hostTrivial c10engine c10ctx 5
    7 c10s0 c10out c10r c10rule { set := some ["seen"] } rfl (by decide)
    rfl (by decide) rfl (by decide) rfl (by decide)).2 c10stF rfl
  exact ⟨h.1, h.2.2 c10ctx2 rfl rfl rfl rfl⟩
